import Mathlib

/-!
Verification development for the itinerary-extraction pipeline:
text normalization (preprocessPDFText), waypoint detection
(extractWaypoints), leg stitching (stitchWaypointsIntoLegs), date
inference (inferOnlyMissingDates) and the BA quality gate
(assessExtractionQuality / parseBA).

Strings are modelled as lists of characters.  Each JavaScript
`String.replace(regex, ...)` call is embedded as a left-to-right
scanner that mirrors the regex engine's semantics on the concrete
pattern in question: leftmost match, greedy repetition, resumption
after the end of a match, and word-boundary tests against the original
characters.
-/

namespace Itin

/-- JS `\w`: ASCII letters, digits and underscore (`a`-`z`, `A`-`Z`, `0`-`9`, `_`). -/
def isWordChar (c : Char) : Bool :=
  (97 ≤ c.toNat && c.toNat ≤ 122) || (65 ≤ c.toNat && c.toNat ≤ 90) ||
  (48 ≤ c.toNat && c.toNat ≤ 57) || c.toNat = 95

/-- JS `\d` (`0`-`9`). -/
def isDigitChar (c : Char) : Bool :=
  48 ≤ c.toNat && c.toNat ≤ 57

/-- `A`-`Z`. -/
def isUpperAZ (c : Char) : Bool :=
  65 ≤ c.toNat && c.toNat ≤ 90

/-- `a`-`z`. -/
def isLowerAZ (c : Char) : Bool :=
  97 ≤ c.toNat && c.toNat ≤ 122

/-- JS `\s`: whitespace and line terminators (code points). -/
def isSpaceJS (c : Char) : Bool :=
  let n := c.toNat
  n = 32 || n = 9 || n = 10 || n = 11 || n = 12 || n = 13 ||
  n = 0xA0 || n = 0x1680 || (0x2000 ≤ n && n ≤ 0x200A) ||
  n = 0x2028 || n = 0x2029 || n = 0x202F || n = 0x205F || n = 0x3000 || n = 0xFEFF

def digitVal (c : Char) : Nat :=
  c.toNat - '0'.toNat

/-- `leadsWith pat l` is true when `pat` is an initial run of `l`. -/
def leadsWith : List Char → List Char → Bool
  | [], _ => true
  | _ :: _, [] => false
  | p :: ps, c :: cs => p = c && leadsWith ps cs

/-- JS `String.prototype.indexOf`: index of the first occurrence of `pat`. -/
def indexOfSub : List Char → List Char → Option Nat
  | [], pat => if leadsWith pat [] then some 0 else none
  | c :: rest, pat =>
    if leadsWith pat (c :: rest) then some 0
    else (indexOfSub rest pat).map (· + 1)

/-- JS `String.prototype.includes`. -/
def containsSub (l pat : List Char) : Bool :=
  (indexOfSub l pat).isSome

/-- JS `String.prototype.trim` (we use the `\s` class for both ends). -/
def trimJS (l : List Char) : List Char :=
  ((l.dropWhile isSpaceJS).reverse.dropWhile isSpaceJS).reverse

/-- JS `Array.prototype.join(' ')`. -/
def joinSp : List (List Char) → List Char
  | [] => []
  | [l] => l
  | l :: ls => l ++ ' ' :: joinSp ls

/--
Result of attempting a regex match at the current position:
the replacement text, the word-character status of the last character
of the matched (original) text, and the remaining input after the match.
-/
abbrev MatchRes : Type := List Char × Bool × List Char

/--
Generic driver for `String.replace(/…/g, …)`.  `m pw l` attempts a
match at the head of `l`, where `pw` records whether the character
just before the current position is a word character (for `\b` tests).
On failure the scanner emits one character and retries; on success it
emits the replacement and resumes after the matched text.  `fuel` bounds
the recursion; every matcher consumes at least one character, so
`fuel = l.length` computes the true result.
-/
def scanReplFuel (m : Bool → List Char → Option MatchRes) :
    Nat → Bool → List Char → List Char
  | 0, _, l => l
  | _ + 1, _, [] => []
  | fuel + 1, pw, c :: cs =>
    match m pw (c :: cs) with
    | some (repl, pw2, rest) => repl ++ scanReplFuel m fuel pw2 rest
    | none => c :: scanReplFuel m fuel (isWordChar c) cs

def scanRepl (m : Bool → List Char → Option MatchRes) (l : List Char) : List Char :=
  scanReplFuel m l.length false l

/-! ## preprocessPDFText (src/lib/preprocessing/textCleaner.ts) -/

/-- Character class of `/[✈️🛫🛬]/g` (the emoji is airplane + VS16), as code points. -/
def iconNats1 : List Nat := [0x2708, 0xFE0F, 0x1F6EB, 0x1F6EC]

/-- Character class of `/[✈✉✓✔]/g`, as code points. -/
def iconNats2 : List Nat := [0x2708, 0x2709, 0x2713, 0x2714]

/-- Steps 1a/1b: strip icon glyphs. -/
def stripIcons (l : List Char) : List Char :=
  (l.filter (fun c => !(iconNats1.contains c.toNat))).filter
    (fun c => !(iconNats2.contains c.toNat))

/--
Matcher for `/(\w+)-\n(\w+)/g → '$1$2'`: a maximal word run followed by
`-`, a newline and a second maximal word run.  (Backtracking the greedy
`\w+` cannot help, because the character after a shorter run is still a
word character, never `-`.)
-/
def dehyphM (_pw : Bool) (l : List Char) : Option MatchRes :=
  let r1 := l.takeWhile isWordChar
  if r1.isEmpty then none
  else
    match l.dropWhile isWordChar with
    | '-' :: '\n' :: rest2 =>
      let r2 := rest2.takeWhile isWordChar
      if r2.isEmpty then none
      else some (r1 ++ r2, true, rest2.dropWhile isWordChar)
    | _ => none

/-- Matcher for `/\s+/g → ' '`. -/
def collapseM (_pw : Bool) (l : List Char) : Option MatchRes :=
  match l with
  | c :: _ =>
    if isSpaceJS c then some ([' '], false, l.dropWhile isSpaceJS) else none
  | [] => none

/-- Matcher for `/\n{3,}/g → '\n\n'`. -/
def capNewlinesM (_pw : Bool) (l : List Char) : Option MatchRes :=
  match l with
  | c :: _ =>
    if c = '\n' then
      let run := l.takeWhile (fun d => d = '\n')
      if 3 ≤ run.length then some (['\n', '\n'], false, l.dropWhile (fun d => d = '\n'))
      else none
    else none
  | [] => none

/--
Matcher for the glued-IATA split
`/\b([A-Z]{3})(?=[A-Z]{3})\b/g → '$1 '`.  The final `\b` is tested at
the position after the third captured letter, whose neighbours are the
captured letter and the first lookahead letter.
-/
def gluedM (pw : Bool) (l : List Char) : Option MatchRes :=
  match l with
  | a :: b :: c :: rest =>
    if !pw && isUpperAZ a && isUpperAZ b && isUpperAZ c then
      match rest with
      | d :: e :: f :: _ =>
        if isUpperAZ d && isUpperAZ e && isUpperAZ f then
          if isWordChar c != isWordChar d then some ([a, b, c, ' '], true, rest)
          else none
        else none
      | _ => none
    else none
  | _ => none

/-- The callback of the `HHMM` rule: keep the match unless it is a valid time. -/
def timesARepl (a b c d : Char) (rest : List Char) : Option MatchRes :=
  let hour := digitVal a * 10 + digitVal b
  let minute := digitVal c * 10 + digitVal d
  if hour ≤ 23 && minute ≤ 59 then some ([a, b, ':', c, d], true, rest)
  else some ([a, b, c, d], true, rest)

/-- Matcher for `/\b(\d{2})(\d{2})\b/g` with the time-validation callback. -/
def timesAM (pw : Bool) (l : List Char) : Option MatchRes :=
  match l with
  | a :: b :: c :: d :: rest =>
    if !pw && isDigitChar a && isDigitChar b && isDigitChar c && isDigitChar d then
      match rest with
      | e :: _ => if isWordChar e then none else timesARepl a b c d rest
      | [] => timesARepl a b c d rest
    else none
  | _ => none

/-- Matcher for `/\b(\d):(\d{2})\b/g → '0$1:$2'`. -/
def timesBM (pw : Bool) (l : List Char) : Option MatchRes :=
  match l with
  | a :: b :: c :: d :: rest =>
    if !pw && isDigitChar a && b = ':' && isDigitChar c && isDigitChar d then
      match rest with
      | e :: _ => if isWordChar e then none else some (['0', a, ':', c, d], true, rest)
      | [] => some (['0', a, ':', c, d], true, rest)
    else none
  | _ => none

/-- `normalizeTimeFormats`: the `HHMM → HH:MM` rule, then zero-padding. -/
def normalizeTimeFormats (l : List Char) : List Char :=
  scanRepl timesBM (scanRepl timesAM l)

/-- Case-insensitive parse of the literal `day` (for `days?` under `/i`). -/
def dayParse : List Char → Option (List Char)
  | x :: y :: z :: r =>
    if (x = 'd' || x = 'D') && (y = 'a' || y = 'A') && (z = 'y' || z = 'Y') then some r
    else none
  | _ => none

/--
The alternation `(?:\([+]\d+\s*days?\)|[+]\d+\s*days?|\([+]\d+\)|[+]\d+)`
of `markNextDayArrivals`, tried in source order.  Returns the
word-character status of the last consumed character and the rest.
-/
def tryDayAlt : List Char → Option (Bool × List Char)
  | '(' :: '+' :: rest2 =>
    let ds := rest2.takeWhile isDigitChar
    if ds.isEmpty then none
    else
      let r3 := rest2.dropWhile isDigitChar
      -- first alternative: `\([+]\d+\s*days?\)`
      let afterDay := dayParse (r3.dropWhile isSpaceJS)
      match afterDay with
      | some (')' :: r6) => some (false, r6)
      | some (s :: ')' :: r6) =>
        if s = 's' || s = 'S' then some (false, r6)
        else match r3 with
          | ')' :: r7 => some (false, r7)
          | _ => none
      | _ =>
        -- third alternative: `\([+]\d+\)`
        match r3 with
        | ')' :: r7 => some (false, r7)
        | _ => none
  | '+' :: rest2 =>
    let ds := rest2.takeWhile isDigitChar
    if ds.isEmpty then none
    else
      let r3 := rest2.dropWhile isDigitChar
      -- second alternative: `[+]\d+\s*days?`
      match dayParse (r3.dropWhile isSpaceJS) with
      | some r5 =>
        match r5 with
        | s :: r6 => if s = 's' || s = 'S' then some (true, r6) else some (true, s :: r6)
        | [] => some (true, [])
      | none =>
        -- fourth alternative: `[+]\d+`
        some (true, r3)
  | _ => none

/--
Matcher for
`/(\d{2}:\d{2})\s*(?:\([+]\d+\s*days?\)|[+]\d+\s*days?|\([+]\d+\)|[+]\d+)/gi
→ '$1 NEXT_DAY'`.  Inner `\s*` runs are maximal: every alternative
starts with a non-space character, so backtracking them cannot succeed.
-/
def nextDayM (_pw : Bool) (l : List Char) : Option MatchRes :=
  match l with
  | a :: b :: c :: d :: e :: rest =>
    if isDigitChar a && isDigitChar b && c = ':' && isDigitChar d && isDigitChar e then
      match tryDayAlt (rest.dropWhile isSpaceJS) with
      | some (pw2, altRest) =>
        some ([a, b, ':', d, e] ++ (' ' :: ('N' :: 'E' :: 'X' :: 'T' :: '_' :: 'D' :: 'A' :: 'Y' :: [])), pw2, altRest)
      | none => none
    else none
  | _ => none

/-- `markNextDayArrivals`. -/
def markNextDayArrivals (l : List Char) : List Char :=
  scanRepl nextDayM l

/-- Case-insensitive match against a lowercase letter. -/
def eqCI (c low : Char) : Bool :=
  c.toNat = low.toNat || c.toNat = low.toNat - 32

/--
Matcher for the OCR repairs `/\bx\s+y\s+z\b/gi → repl`
(`l h r → LHR` and friends).
-/
def ocrM (x y z : Char) (repl : List Char) (pw : Bool) (l : List Char) : Option MatchRes :=
  match l with
  | a :: rest =>
    if !pw && eqCI a x then
      let sp1 := rest.takeWhile isSpaceJS
      if sp1.isEmpty then none
      else
        match rest.dropWhile isSpaceJS with
        | b :: rest2 =>
          if eqCI b y then
            let sp2 := rest2.takeWhile isSpaceJS
            if sp2.isEmpty then none
            else
              match rest2.dropWhile isSpaceJS with
              | c :: rest3 =>
                if eqCI c z then
                  match rest3 with
                  | d :: _ => if isWordChar d then none else some (repl, true, rest3)
                  | [] => some (repl, true, rest3)
                else none
              | [] => none
          else none
        | [] => none
    else none
  | [] => none

/-- `preprocessPDFText` (steps 1-6 of the text cleaner, in source order). -/
def preprocessPDFText (l : List Char) : List Char :=
  let s1 := stripIcons l
  let s2 := scanRepl dehyphM s1
  let s3 := scanRepl collapseM s2
  let s4 := scanRepl capNewlinesM s3
  let s5 := scanRepl gluedM s4
  let s6 := normalizeTimeFormats s5
  let s7 := markNextDayArrivals s6
  let s8 := scanRepl (ocrM 'l' 'h' 'r' ['L', 'H', 'R']) s7
  let s9 := scanRepl (ocrM 'j' 'n' 'b' ['J', 'N', 'B']) s8
  let s10 := scanRepl (ocrM 'c' 'p' 't' ['C', 'P', 'T']) s9
  scanRepl (ocrM 'a' 'c' 'c' ['A', 'C', 'C']) s10

/-! ## extractWaypoints (src/lib/preprocessing/textCleaner.ts) -/

/-- JS `String.prototype.split(sep)` for a one-character separator. -/
def splitOnChar (sep : Char) : List Char → List (List Char)
  | [] => [[]]
  | c :: rest =>
    if c = sep then [] :: splitOnChar sep rest
    else
      match splitOnChar sep rest with
      | l :: ls => (c :: l) :: ls
      | [] => [[c]]

/-- ASCII lowering, as used on the letters-and-spaces `cleanCity` string. -/
def asciiToLower (c : Char) : Char :=
  if isUpperAZ c then Char.ofNat (c.toNat + 32) else c

def toLowerList (l : List Char) : List Char :=
  l.map asciiToLower

structure Waypoint where
  time : List Char
  location : List Char
  isNextDay : Bool
  terminal : Option (List Char)
  contextIndex : Nat
  deriving DecidableEq, Repr

/--
The line-opening time pattern `^(\d{1,2}:\d{2})\s*(.*)$`.  Returns the
time capture and the text after the greedy `\s*`.  The greedy
`\d{1,2}` is resolved by the position of the colon.
-/
def timeLineMatch (l : List Char) : Option (List Char × List Char) :=
  match l with
  | a :: b :: rest =>
    if b = ':' then
      -- one-digit hour: `\d:\d{2}`
      match rest with
      | c :: d :: rest2 =>
        if isDigitChar a && isDigitChar c && isDigitChar d then
          some ([a, b, c, d], rest2.dropWhile isSpaceJS)
        else none
      | _ => none
    else
      -- two-digit hour: `\d{2}:\d{2}`
      match rest with
      | c :: d :: e :: rest2 =>
        if c = ':' then
          if isDigitChar a && isDigitChar b && isDigitChar d && isDigitChar e then
            some ([a, b, c, d, e], rest2.dropWhile isSpaceJS)
          else none
        else none
      | _ => none
  | _ => none

/-- Head-anchored attempt of `/\(([A-Z]{3})\)/`. -/
def parenIataAt : List Char → Option (List Char)
  | '(' :: a :: b :: c :: ')' :: _ =>
    if isUpperAZ a && isUpperAZ b && isUpperAZ c then some [a, b, c] else none
  | _ => none

/-- Leftmost match of `/\(([A-Z]{3})\)/` anywhere in the line. -/
def findParenIata : List Char → Option (List Char)
  | [] => none
  | c :: rest =>
    match parenIataAt (c :: rest) with
    | some r => some r
    | none => findParenIata rest

/-- The inline `directMap` of `extractWaypoints`. -/
def directCityMap : List (List Char × List Char) :=
  [("accra".toList, "ACC".toList), ("johannesburg".toList, "JNB".toList),
   ("cape town".toList, "CPT".toList), ("london".toList, "LHR".toList),
   ("paris".toList, "CDG".toList), ("frankfurt".toList, "FRA".toList),
   ("amsterdam".toList, "AMS".toList)]

def lookupAssoc (m : List (List Char × List Char)) (k : List Char) : Option (List Char) :=
  match m with
  | [] => none
  | (k2, v) :: rest => if k = k2 then some v else lookupAssoc rest k

/--
The `for (const mapCity of cities)` fallback: first key related to
`cleanCity` by substring containment in either direction wins.
-/
def mapScan (cleanCity : List Char) : List (List Char × List Char) → List Char
  | [] => []
  | (k, v) :: rest =>
    if containsSub cleanCity (toLowerList k) || containsSub (toLowerList k) cleanCity
    then v else mapScan cleanCity rest

/-- Character class `[A-Z0-9]` under the `/i` flag. -/
def terminalClass (c : Char) : Bool :=
  isUpperAZ c || isLowerAZ c || isDigitChar c

/-- Case-insensitive literal match of a lowercase word at the head. -/
def matchCIWord : List Char → List Char → Option (List Char)
  | [], l => some l
  | _ :: _, [] => none
  | p :: ps, c :: cs => if eqCI c p then matchCIWord ps cs else none

/-- Head-anchored attempt of `/Terminal\s*([A-Z0-9]+)/i`. -/
def terminalAt (l : List Char) : Option (List Char) :=
  match matchCIWord "terminal".toList l with
  | some rest =>
    let rest2 := rest.dropWhile isSpaceJS
    let run := rest2.takeWhile terminalClass
    if run.isEmpty then none else some run
  | none => none

def findTerminal : List Char → Option (List Char)
  | [] => none
  | c :: rest =>
    match terminalAt (c :: rest) with
    | some r => some r
    | none => findTerminal rest

/-- Resolution of the airport code for a candidate waypoint, in priority order. -/
def resolveLocation (nextLine : Option (List Char)) (city : List Char)
    (cityIataMap : List (List Char × List Char)) : List Char :=
  let fromParens :=
    match nextLine with
    | some nl => match findParenIata nl with | some i => i | none => []
    | none => []
  if fromParens ≠ [] then fromParens
  else if city = [] then []
  else
    let cleanCity :=
      toLowerList (trimJS (city.filter fun c => isUpperAZ c || isLowerAZ c || isSpaceJS c))
    match lookupAssoc directCityMap cleanCity with
    | some v => v
    | none => mapScan cleanCity cityIataMap

def wpKey (time location : List Char) : List Char :=
  time ++ '-' :: location

/-- `lines.slice(Math.max(0, i - 1), Math.min(i + 3, lines.length)).join(' ')`. -/
def surroundingOf (lines : List (List Char)) (i : Nat) : List Char :=
  joinSp ((lines.take (min (i + 3) lines.length)).drop (i - 1))

/-- One iteration of the `extractWaypoints` line loop. -/
def processLine (lines : List (List Char)) (cityIataMap : List (List Char × List Char))
    (i : Nat) (seen : List (List Char)) : Option Waypoint :=
  match lines.get? i with
  | none => none
  | some rawLine =>
    let line := trimJS rawLine
    if line = [] || line = "Itinerary details".toList || line = "Your fare".toList then none
    else
      match timeLineMatch line with
      | none => none
      | some (time, afterSp) =>
        let city := trimJS afterSp
        let location := resolveLocation (lines.get? (i + 1)) city cityIataMap
        if location = [] then none
        else if seen.contains (wpKey time location) then none
        else
          let surrounding := surroundingOf lines i
          let isND := containsSub surrounding "+1 day".toList ||
                      containsSub surrounding "(+1 day)".toList ||
                      containsSub surrounding "+1".toList
          some { time := time, location := location, isNextDay := isND,
                 terminal := findTerminal surrounding, contextIndex := i }

def wpLoop (lines : List (List Char)) (cityIataMap : List (List Char × List Char)) :
    Nat → Nat → List (List Char) → List Waypoint
  | 0, _, _ => []
  | fuel + 1, i, seen =>
    match processLine lines cityIataMap i seen with
    | some wp => wp :: wpLoop lines cityIataMap fuel (i + 1) (wpKey wp.time wp.location :: seen)
    | none => wpLoop lines cityIataMap fuel (i + 1) seen

/-- Stable ascending insertion by `contextIndex` (JS `sort((a,b) => a.contextIndex - b.contextIndex)`). -/
def insertByCtx (w : Waypoint) : List Waypoint → List Waypoint
  | [] => [w]
  | v :: vs => if w.contextIndex ≤ v.contextIndex then w :: v :: vs else v :: insertByCtx w vs

def sortByCtx : List Waypoint → List Waypoint
  | [] => []
  | w :: ws => insertByCtx w (sortByCtx ws)

def extractWaypoints (text : List Char) (cityIataMap : List (List Char × List Char)) :
    List Waypoint :=
  let searchText :=
    match indexOfSub text "Itinerary details".toList with
    | some idx => text.drop idx
    | none => text
  let lines := splitOnChar '\n' searchText
  sortByCtx (wpLoop lines cityIataMap lines.length 0 [])

/-! ## stitchWaypointsIntoLegs (src/lib/preprocessing/segmentBuilder.ts) -/

structure LegPoint where
  time : List Char
  location : List Char
  terminal : Option (List Char)
  isNextDay : Bool
  deriving DecidableEq, Repr

structure FlightLeg where
  flightNumber : Option (List Char)
  departure : LegPoint
  arrival : LegPoint
  duration : Option (List Char)
  deriving DecidableEq, Repr

inductive StitchWarning
  | oddWaypoints (count : Nat)
  deriving DecidableEq, Repr

def legPointOf (w : Waypoint) : LegPoint :=
  { time := w.time, location := w.location, terminal := w.terminal, isNextDay := w.isNextDay }

def mkLeg (dep arr : Waypoint) (legIndex : Nat) (flightNumbers : List (List Char))
    (durations : List (List Char × List Char)) : FlightLeg :=
  let fn := flightNumbers.get? legIndex
  let dur :=
    match fn with
    | some f =>
      match lookupAssoc durations f with
      | some d => if d = [] then none else some d
      | none => none
    | none => none
  { flightNumber := fn, departure := legPointOf dep, arrival := legPointOf arr,
    duration := dur }

def stitchLoop (flightNumbers : List (List Char)) (durations : List (List Char × List Char)) :
    List Waypoint → Nat → List FlightLeg
  | w1 :: w2 :: rest, k => mkLeg w1 w2 k flightNumbers durations :: stitchLoop flightNumbers durations rest (k + 1)
  | _, _ => []

/--
`stitchWaypointsIntoLegs`: the returned list of legs together with the
`console.warn` events it emits (the only warning is the odd-count one).
-/
def stitchWaypointsIntoLegs (waypoints : List Waypoint) (flightNumbers : List (List Char))
    (durations : List (List Char × List Char)) : List FlightLeg × List StitchWarning :=
  let warns := if waypoints.length % 2 ≠ 0 then [StitchWarning.oddWaypoints waypoints.length] else []
  (stitchLoop flightNumbers durations waypoints 0, warns)

/-! ## Date inference (src/lib/utils/dateInference.ts) -/

/--
Model of a JS `Date` restricted to what `inferOnlyMissingDates` uses:
a UTC calendar day (as a day count) and the minute of that day.
`setUTCHours(h, m, 0, 0)` rolls surplus hours over into days, as JS does.
-/
structure MDT where
  day : Int
  minute : Nat
  deriving DecidableEq, Repr

def setUTCHoursMin (d : MDT) (h m : Nat) : MDT :=
  let total := h * 60 + m
  { day := d.day + (total / 1440 : Nat), minute := total % 1440 }

/-- `setDate(getDate() + n)` (UTC model). -/
def addDays (d : MDT) (n : Int) : MDT :=
  { d with day := d.day + n }

def getUTCHoursOf (d : MDT) : Nat :=
  d.minute / 60

inductive Conf
  | low | medium | high
  deriving DecidableEq, Repr

structure DTInfo where
  date : Option (List Char)
  timeLocal : Option (List Char)
  parsedDateTime : Option MDT
  isInferred : Bool
  confidence : Conf
  deriving DecidableEq, Repr

structure InfSegment where
  marketingFlightNo : List Char
  dep : DTInfo
  arr : DTInfo
  deriving DecidableEq, Repr

/-- Digits of a natural number (JS `Number.prototype.toString`). -/
def natDigits (n : Nat) : List Char :=
  (Nat.toDigits 10 n)

/-- JS `String(h).padStart(2, '0')` for a decimal rendering. -/
def padTwo (n : Nat) : List Char :=
  let ds := natDigits n
  if ds.length = 1 then '0' :: ds else ds

/-- `parseInt` on a string that starts with digits: value of the leading digit run. -/
def parseIntPre (l : List Char) : Nat :=
  (l.takeWhile isDigitChar).foldl (fun acc c => acc * 10 + digitVal c) 0

/-- The military-time branch `/^\d{4}$/` of `normalizeTimeString`. -/
def nts4 : List Char → Option (List Char)
  | [a, b, c, d] =>
    if isDigitChar a && isDigitChar b && isDigitChar c && isDigitChar d &&
       (digitVal a * 10 + digitVal b ≤ 23) && (digitVal c * 10 + digitVal d ≤ 59) then
      some [a, b, ':', c, d]
    else none
  | _ => none

/-- The colon branch `/^\d{1,2}:\d{2}$/` of `normalizeTimeString`. -/
def ntsColon : List Char → Option (List Char)
  | [a, ':', c, d] =>
    if isDigitChar a && isDigitChar c && isDigitChar d then some ['0', a, ':', c, d] else none
  | [a, b, ':', c, d] =>
    if isDigitChar a && isDigitChar b && isDigitChar c && isDigitChar d then
      some [a, b, ':', c, d]
    else none
  | _ => none

/-- The 12-hour branch `/^(\d{1,2}):(\d{2})\s*(AM|PM)$/i`. -/
def ntsAmPm (ct : List Char) : Option (List Char) :=
  let parse : Option (Nat × Char × Char × List Char) :=
    match ct with
    | a :: ':' :: c :: d :: rest =>
      if isDigitChar a && isDigitChar c && isDigitChar d then
        some (digitVal a, c, d, rest)
      else none
    | a :: b :: ':' :: c :: d :: rest =>
      if isDigitChar a && isDigitChar b && isDigitChar c && isDigitChar d then
        some (digitVal a * 10 + digitVal b, c, d, rest)
      else none
    | _ => none
  match parse with
  | none => none
  | some (h, c, d, rest) =>
    match rest.dropWhile isSpaceJS with
    | [p, m] =>
      if (eqCI p 'a' || eqCI p 'p') && eqCI m 'm' then
        let isPM := eqCI p 'p'
        let h2 := if isPM && h ≠ 12 then h + 12 else if !isPM && h = 12 then 0 else h
        some (padTwo h2 ++ ':' :: [c, d])
      else none
    | _ => none

/-- `normalizeTimeString`: the three branches in source order, else `null`. -/
def normalizeTimeString (l : List Char) : Option (List Char) :=
  let ct := trimJS l
  match nts4 ct with
  | some r => some r
  | none =>
    match ntsColon ct with
    | some r => some r
    | none => ntsAmPm ct

/-- `parseInt(t.replace(':', '').substring(0, 2))`. -/
def hourOfTimeStr (l : List Char) : Nat :=
  let replaced :=
    match indexOfSub l [':'] with
    | some _ =>
      (l.takeWhile (fun c => c ≠ ':')) ++ (l.dropWhile (fun c => c ≠ ':')).tail
    | none => l
  parseIntPre (replaced.take 2)

/-- `t.split(':').map(Number)` destructured as `[hours, minutes]`. -/
def splitColonNums (l : List Char) : Nat × Nat :=
  (parseIntPre (l.takeWhile (fun c => c ≠ ':')),
   parseIntPre (((l.dropWhile (fun c => c ≠ ':')).tail).takeWhile (fun c => c ≠ ':')))

/--
First branch of the `inferOnlyMissingDates` loop: infer a missing
arrival date from the departure date and the arrival time.  Throws
(models the `undefined.trim()` TypeError) when the guard passes but the
departure has no `timeLocal` string.
-/
def inferArrStep (s : InfSegment) : Except Unit InfSegment :=
  if s.arr.date = none ∧ s.arr.parsedDateTime = none ∧
     s.dep.parsedDateTime.isSome ∧ s.arr.timeLocal.isSome then
    match s.arr.timeLocal, s.dep.parsedDateTime with
    | some arrT, some depDT =>
      match s.dep.timeLocal with
      | none => Except.error ()
      | some depT =>
        match normalizeTimeString arrT, normalizeTimeString depT with
        | some arrStr, some depStr =>
          let arrHour := hourOfTimeStr arrStr
          let depHour := hourOfTimeStr depStr
          let hm := splitColonNums arrStr
          let base := setUTCHoursMin depDT hm.1 hm.2
          let arrDate :=
            if (arrHour : Int) < (depHour : Int) - 12 then addDays base 1 else base
          Except.ok { s with arr := { s.arr with parsedDateTime := some arrDate,
                                                 isInferred := true,
                                                 confidence := Conf.medium } }
        | _, _ => Except.ok s
    | _, _ => Except.ok s
  else Except.ok s

/-- Second branch: infer a missing departure date from the previous arrival. -/
def inferDepFromPrev (prev : Option InfSegment) (s : InfSegment) : InfSegment :=
  match prev with
  | none => s
  | some p =>
    if s.dep.date = none ∧ s.dep.parsedDateTime = none ∧ s.dep.timeLocal.isSome ∧
       p.arr.parsedDateTime.isSome then
      match s.dep.timeLocal, p.arr.parsedDateTime with
      | some depT, some prevArr =>
        match normalizeTimeString depT with
        | some depStr =>
          let hm := splitColonNums depStr
          let prevArrHour := getUTCHoursOf prevArr
          let d1 := if (hm.1 : Int) < (prevArrHour : Int) - 2 then addDays prevArr 1 else prevArr
          let d2 := setUTCHoursMin d1 hm.1 hm.2
          { s with dep := { s.dep with parsedDateTime := some d2,
                                       isInferred := true, confidence := Conf.medium } }
        | none => s
      | _, _ => s
    else s

/-- Third branch: first segment with no context falls back to the current date. -/
def inferDepFallback (now : MDT) (prev : Option InfSegment) (s : InfSegment) : InfSegment :=
  if s.dep.date = none ∧ s.dep.parsedDateTime = none ∧ s.dep.timeLocal.isSome ∧ prev = none then
    match s.dep.timeLocal with
    | some depT =>
      match normalizeTimeString depT with
      | some depStr =>
        let hm := splitColonNums depStr
        { s with dep := { s.dep with parsedDateTime := some (setUTCHoursMin now hm.1 hm.2),
                                     isInferred := true, confidence := Conf.low } }
      | none => s
    | none => s
  else s

def inferStep (now : MDT) (prev : Option InfSegment) (s : InfSegment) :
    Except Unit InfSegment :=
  match inferArrStep s with
  | Except.error e => Except.error e
  | Except.ok s1 => Except.ok (inferDepFallback now prev (inferDepFromPrev prev s1))

def inferLoop (now : MDT) : Option InfSegment → List InfSegment → Except Unit (List InfSegment)
  | _, [] => Except.ok []
  | prev, s :: rest =>
    match inferStep now prev s with
    | Except.error e => Except.error e
    | Except.ok s2 =>
      match inferLoop now (some s2) rest with
      | Except.error e => Except.error e
      | Except.ok rest2 => Except.ok (s2 :: rest2)

/--
`inferOnlyMissingDates`, with the wall clock (`new Date()`) passed
explicitly.  Each iteration sees the already-updated previous segment,
as the in-place mutation of the source does.
-/
def inferOnlyMissingDates (now : MDT) (segments : List InfSegment) :
    Except Unit (List InfSegment) :=
  inferLoop now none segments

/-! ## BA parser quality gate (src/lib/parsers/ba.ts) -/

structure Passenger where
  fullName : List Char
  deriving DecidableEq, Repr

structure SegPoint where
  iata : Option (List Char)
  city : Option (List Char)
  terminal : Option (List Char)
  timeLocal : Option (List Char)
  date : Option (List Char)
  deriving DecidableEq, Repr

structure TicketSeg where
  marketingFlightNo : List Char
  dep : SegPoint
  arr : SegPoint
  deriving DecidableEq, Repr

structure Payment where
  currency : List Char
  total : Int
  deriving DecidableEq, Repr

structure TicketNum where
  number : List Char
  paxName : List Char
  deriving DecidableEq, Repr

structure ParsedTicket where
  carrier : List Char
  airlineLocator : Option (List Char)
  passengers : List Passenger
  segments : List TicketSeg
  baggage : Option (List Char)
  payments : List Payment
  tickets : List TicketNum
  fareNotes : Option (List Char)
  deriving DecidableEq, Repr

/-- The passenger filter in `assessExtractionQuality`. -/
def validPassengerB (p : Passenger) : Bool :=
  p.fullName ≠ [] &&
  decide (2 ≤ (splitOnChar ' ' p.fullName).length) &&
  decide ((splitOnChar ' ' p.fullName).length ≤ 4) &&
  !(containsSub p.fullName "BAGGAGE".toList || containsSub p.fullName "ALLOWANCE".toList ||
    containsSub p.fullName "FLIGHT".toList || containsSub p.fullName "TICKET".toList)

/-- `/^[A-Z]{2,3}\d+$/`: two or three capitals then one or more digits. -/
def flightNoPattern (l : List Char) : Bool :=
  let us := l.takeWhile isUpperAZ
  let ds := l.dropWhile isUpperAZ
  (us.length = 2 || us.length = 3) && !ds.isEmpty && ds.all isDigitChar

/-- The segment filter in `assessExtractionQuality` (`s.dep`/`s.arr` are always objects). -/
def validSegmentB (s : TicketSeg) : Bool :=
  s.marketingFlightNo ≠ [] && flightNoPattern s.marketingFlightNo

/-- Passenger-data-quality block (weight 30) of `assessExtractionQuality`. -/
def passengerQualitySubscore (ps : List Passenger) : ℚ :=
  if 0 < ps.length then
    ((ps.filter validPassengerB).length : ℚ) / (ps.length : ℚ) * 20 +
      min ((ps.length : ℚ) * 5) 10
  else 0

/-- Segment-data-quality block (weight 20). -/
def segmentQualitySubscore (ss : List TicketSeg) : ℚ :=
  if 0 < ss.length then
    ((ss.filter validSegmentB).length : ℚ) / (ss.length : ℚ) * 15 +
      min ((ss.length : ℚ) * (5 / 2)) 5
  else 0

/-- Critical-data-presence block (weight 40). -/
def criticalSubscore (t : ParsedTicket) : ℚ :=
  (if (match t.airlineLocator with | some s => decide (5 ≤ s.length) | none => false) then 15 else 0) +
  (if 0 < t.passengers.length then 15 else 0) +
  (if 0 < t.segments.length then 10 else 0)

/-- Optional-data block (weight 10). -/
def extrasSubscore (t : ParsedTicket) : ℚ :=
  (if t.baggage.isSome then 3 else 0) +
  (if 0 < t.payments.length then 3 else 0) +
  (if 0 < t.tickets.length then 2 else 0) +
  (if t.fareNotes.isSome then 2 else 0)

/--
`assessExtractionQuality`: `maxScore` always accumulates to 100, so the
result is `min(score / 100, 1.0)` (JS numbers modelled as rationals).
-/
def assessExtractionQuality (t : ParsedTicket) : ℚ :=
  let score := criticalSubscore t + passengerQualitySubscore t.passengers +
    segmentQualitySubscore t.segments + extrasSubscore t
  min (score / 100) 1

/--
The quality-gate control flow of `parseBA` (lines 73-117): the external
generative extraction is abstracted as `aiOutcome` (`none` models a
thrown/failed AI call).  Returns the chosen ticket and whether the AI
fallback was invoked.  The source invokes the AI path whenever
`isGroqConfigured()` holds — the score is computed but not consulted
for the decision ("removed quality threshold").
-/
def parseBAGate (groqConfigured : Bool) (regexResult : ParsedTicket)
    (aiOutcome : Option ParsedTicket) : ParsedTicket × Bool :=
  let qualityScore := assessExtractionQuality regexResult
  if groqConfigured then
    match aiOutcome with
    | some aiR =>
      if assessExtractionQuality aiR > qualityScore then (aiR, true) else (regexResult, true)
    | none => (regexResult, true)
  else (regexResult, false)

/-! ## Theorems -/

/-- A matcher that never fires leaves every string unchanged. -/
theorem scanReplFuel_none (m : Bool → List Char → Option MatchRes)
    (hm : ∀ pw l, m pw l = none) :
    ∀ (fuel : Nat) (pw : Bool) (l : List Char), scanReplFuel m fuel pw l = l
  | 0, _, _ => rfl
  | _ + 1, _, [] => rfl
  | fuel + 1, pw, c :: cs => by
    simp only [scanReplFuel, hm pw (c :: cs)]
    exact congrArg (c :: ·) (scanReplFuel_none m hm fuel (isWordChar c) cs)

theorem isWordChar_of_upper {c : Char} (h : isUpperAZ c = true) : isWordChar c = true := by
  simp only [isUpperAZ, Bool.and_eq_true, decide_eq_true_eq] at h
  simp only [isWordChar, Bool.or_eq_true, Bool.and_eq_true, decide_eq_true_eq]
  omega

/-- The glued-IATA matcher can never fire: its trailing word-boundary test
sits between the captured third letter and the first lookahead letter,
which are both word characters. -/
theorem gluedM_eq_none (pw : Bool) (l : List Char) : gluedM pw l = none := by
  rcases l with _ | ⟨a, _ | ⟨b, _ | ⟨c, _ | ⟨d, _ | ⟨e, _ | ⟨f, rest⟩⟩⟩⟩⟩⟩
  · rfl
  · rfl
  · rfl
  · simp only [gluedM]
    split <;> rfl
  · simp only [gluedM]
    split <;> rfl
  · simp only [gluedM]
    split <;> rfl
  · simp only [gluedM]
    split
    · next h1 =>
      simp only [Bool.and_eq_true] at h1
      split
      · next h2 =>
        simp only [Bool.and_eq_true] at h2
        rw [isWordChar_of_upper h1.2, isWordChar_of_upper h2.1.1]
        simp
      · rfl
    · rfl

set_option maxHeartbeats 2000000 in
/--
C1.  The glued-IATA split is a no-op: the regex
`/\b([A-Z]{3})(?=[A-Z]{3})\b/g` never matches any string (its final
`\b` is tested between two uppercase letters), so `preprocessPDFText`
leaves `"08:20 CPTJNB"` unchanged instead of producing
`"08:20 CPT JNB"` as the spec (and the code's own comment) requires.
-/
theorem glued_iata_split_is_noop :
    (∀ (fuel : Nat) (pw : Bool) (l : List Char), scanReplFuel gluedM fuel pw l = l) ∧
    preprocessPDFText "08:20 CPTJNB".toList = "08:20 CPTJNB".toList ∧
    preprocessPDFText "08:20 CPTJNB".toList ≠ "08:20 CPT JNB".toList := by
  refine ⟨scanReplFuel_none gluedM gluedM_eq_none, by decide, by decide⟩

set_option maxHeartbeats 2000000 in
/--
C2.  Newlines are not preserved: step 2's `/\s+/g → ' '` collapses
newline runs into single spaces before the `/\n{3,}/g` cap can see
them, so lines separated by one or two newlines end up joined by a
space, with no newline in the normalized output.
-/
theorem whitespace_collapse_destroys_newlines :
    preprocessPDFText ('A' :: '\n' :: ['B']) = "A B".toList ∧
    preprocessPDFText ('A' :: '\n' :: '\n' :: ['B']) = "A B".toList ∧
    containsSub (preprocessPDFText ('A' :: '\n' :: ['B'])) ['\n'] = false := by
  refine ⟨by decide, by decide, by decide⟩

set_option maxHeartbeats 2000000 in
/--
C9.  The normalizer is not idempotent: on `"0:0:00"` the zero-padding
rule `/\b(\d):(\d{2})\b/g → '0$1:$2'` pads the second group, producing
`"0:00:00"`, in which a new match (`0:00` at the start) has appeared;
a second application pads again, giving `"00:00:00"`.
-/
theorem normalizer_not_idempotent :
    preprocessPDFText "0:0:00".toList = "0:00:00".toList ∧
    preprocessPDFText (preprocessPDFText "0:0:00".toList) = "00:00:00".toList ∧
    preprocessPDFText (preprocessPDFText "0:0:00".toList) ≠ preprocessPDFText "0:0:00".toList := by
  refine ⟨by decide, by decide, by decide⟩

theorem isWordChar_of_digit {c : Char} (h : isDigitChar c = true) : isWordChar c = true := by
  simp only [isDigitChar, Bool.and_eq_true, decide_eq_true_eq] at h
  simp only [isWordChar, Bool.or_eq_true, Bool.and_eq_true, decide_eq_true_eq]
  omega

theorem decide_colon_of_digit {c : Char} (h : isDigitChar c = true) :
    decide (c = ':') = false := by
  simp only [decide_eq_false_iff_not]
  intro heq
  subst heq
  revert h
  decide

theorem wordChar_colon : isWordChar ':' = false := by decide

def digitChar (n : Nat) : Char :=
  Char.ofNat (48 + n)

set_option maxHeartbeats 2000000 in
/--
C10.  `normalizeTimeFormats` rewrites every standalone four-digit run
whose first two digits read 00-23 and last two digits read 00-59 into
`HH:MM` — including non-time tokens such as the year `2025` (which
becomes `20:25`) — and leaves four-digit runs outside that range (such
as `1980`) unchanged.
-/
theorem time_normalization_rewrites_clock_like_runs :
    normalizeTimeFormats "Issued 2025".toList = "Issued 20:25".toList ∧
    normalizeTimeFormats "Born 1980 ok".toList = "Born 1980 ok".toList ∧
    ∀ (a b c d : Char), isDigitChar a = true → isDigitChar b = true →
      isDigitChar c = true → isDigitChar d = true →
      normalizeTimeFormats [a, b, c, d] =
        if 10 * digitVal a + digitVal b ≤ 23 ∧ 10 * digitVal c + digitVal d ≤ 59 then
          [a, b, ':', c, d]
        else [a, b, c, d] := by
  refine ⟨by decide, by decide, ?_⟩
  intro a b c d ha hb hc hd
  have hwa := isWordChar_of_digit ha
  have hwb := isWordChar_of_digit hb
  have hwc := isWordChar_of_digit hc
  have hwd := isWordChar_of_digit hd
  have hca := decide_colon_of_digit ha
  have hcb := decide_colon_of_digit hb
  have hcc := decide_colon_of_digit hc
  have hcd := decide_colon_of_digit hd
  by_cases hv : 10 * digitVal a + digitVal b ≤ 23 ∧ 10 * digitVal c + digitVal d ≤ 59
  · rw [if_pos hv]
    have hd1 : decide (digitVal a * 10 + digitVal b ≤ 23) = true := by
      rw [Nat.mul_comm]
      exact decide_eq_true hv.1
    have hd2 : decide (digitVal c * 10 + digitVal d ≤ 59) = true := by
      rw [Nat.mul_comm]
      exact decide_eq_true hv.2
    simp [normalizeTimeFormats, scanRepl, scanReplFuel, timesAM, timesBM, timesARepl,
      ha, hb, hc, hd, hca, hcb, hcc, hcd, hwa, hwb, hwc, hwd, wordChar_colon, hd1, hd2]
  · rw [if_neg hv]
    have hv2 : ¬(digitVal a * 10 + digitVal b ≤ 23 ∧ digitVal c * 10 + digitVal d ≤ 59) := by
      rw [Nat.mul_comm (digitVal a) 10, Nat.mul_comm (digitVal c) 10]
      exact hv
    have hd0 : (decide (digitVal a * 10 + digitVal b ≤ 23) &&
        decide (digitVal c * 10 + digitVal d ≤ 59)) = false := by
      by_cases h1 : digitVal a * 10 + digitVal b ≤ 23
      · have h2 : ¬(digitVal c * 10 + digitVal d ≤ 59) := fun h2 => hv2 ⟨h1, h2⟩
        simp [decide_eq_true h1, decide_eq_false h2]
      · simp [decide_eq_false h1]
    simp [normalizeTimeFormats, scanRepl, scanReplFuel, timesAM, timesBM, timesARepl,
      ha, hb, hc, hd, hca, hcb, hcc, hcd, hwa, hwb, hwc, hwd, wordChar_colon, hd0]

/-- Witness for C10 at the year token `2025`. -/
theorem time_normalization_witness :
    normalizeTimeFormats ['2', '0', '2', '5'] = ['2', '0', ':', '2', '5'] := by
  have h := (time_normalization_rewrites_clock_like_runs).2.2 '2' '0' '2' '5'
    (by decide) (by decide) (by decide) (by decide)
  rw [if_pos (by decide)] at h
  exact h

theorem stitchLoop_length (fns : List (List Char)) (durs : List (List Char × List Char)) :
    ∀ (ws : List Waypoint) (k : Nat), (stitchLoop fns durs ws k).length = ws.length / 2
  | [], _ => by simp [stitchLoop]
  | [_], _ => by simp [stitchLoop]
  | _ :: _ :: rest, k => by
    simp only [stitchLoop, List.length_cons]
    rw [stitchLoop_length fns durs rest (k + 1)]
    omega

theorem stitchLoop_get (fns : List (List Char)) (durs : List (List Char × List Char)) :
    ∀ (ws : List Waypoint) (k i : Nat) (v1 v2 : Waypoint),
      ws.get? (2 * i) = some v1 → ws.get? (2 * i + 1) = some v2 →
      (stitchLoop fns durs ws k).get? i = some (mkLeg v1 v2 (k + i) fns durs)
  | [], _, i, _, _, h1, _ => by simp at h1
  | [_], _, i, _, _, h1, h2 => by
    rcases i with _ | i
    · simp at h2
    · rw [show 2 * (i + 1) = 2 * i + 1 + 1 by omega] at h1
      simp at h1
  | w1 :: w2 :: rest, k, 0, v1, v2, h1, h2 => by
    simp only [Nat.mul_zero, List.get?] at h1 h2
    injection h1 with h1
    injection h2 with h2
    subst h1
    subst h2
    simp [stitchLoop]
  | w1 :: w2 :: rest, k, i + 1, v1, v2, h1, h2 => by
    rw [show 2 * (i + 1) = 2 * i + 1 + 1 by omega] at h1
    rw [show 2 * (i + 1) + 1 = (2 * i + 1) + 1 + 1 by omega] at h2
    simp only [List.get?] at h1 h2
    have ih := stitchLoop_get fns durs rest (k + 1) i v1 v2 h1 h2
    simp only [stitchLoop, List.get?]
    rw [ih]
    rw [show k + 1 + i = k + (i + 1) by omega]

set_option maxHeartbeats 1000000 in
/--
C5.  `stitchWaypointsIntoLegs` pairs waypoint `2i` as departure with
waypoint `2i+1` as arrival: on any waypoint list it returns
`⌊n/2⌋` legs (so `2N → N` and `2N+1 → N`), emits the odd-count warning
exactly when `n` is odd (returning normally rather than throwing, the
trailing waypoint dropped), and leg `i` is built from waypoints
`2i`/`2i+1`.
-/
theorem stitch_pairs_positionally (ws : List Waypoint) (fns : List (List Char))
    (durs : List (List Char × List Char)) :
    ((stitchWaypointsIntoLegs ws fns durs).1.length = ws.length / 2) ∧
    ((stitchWaypointsIntoLegs ws fns durs).2 = [] ↔ ws.length % 2 = 0) ∧
    (∀ i v1 v2, ws.get? (2 * i) = some v1 → ws.get? (2 * i + 1) = some v2 →
      ∃ leg, (stitchWaypointsIntoLegs ws fns durs).1.get? i = some leg ∧
        leg.departure = legPointOf v1 ∧ leg.arrival = legPointOf v2) := by
  refine ⟨stitchLoop_length fns durs ws 0, ?_, ?_⟩
  · simp only [stitchWaypointsIntoLegs]
    split
    · next h => simp [h]
    · next h =>
      simp only [ne_eq, Decidable.not_not] at h
      simp [h]
  · intro i v1 v2 h1 h2
    exact ⟨mkLeg v1 v2 (0 + i) fns durs, stitchLoop_get fns durs ws 0 i v1 v2 h1 h2,
      rfl, rfl⟩

def wpA : Waypoint :=
  { time := "20:30".toList, location := "ACC".toList, isNextDay := false,
    terminal := none, contextIndex := 1 }

def wpB : Waypoint :=
  { time := "04:25".toList, location := "JNB".toList, isNextDay := true,
    terminal := none, contextIndex := 3 }

def wpC : Waypoint :=
  { time := "08:20".toList, location := "CPT".toList, isNextDay := false,
    terminal := none, contextIndex := 5 }

/-- Witness for C5 on a three-waypoint (odd) list. -/
theorem stitch_pairs_witness :
    ((stitchWaypointsIntoLegs [wpA, wpB, wpC] [] []).1.length = 1) ∧
    ((stitchWaypointsIntoLegs [wpA, wpB, wpC] [] []).2 ≠ []) ∧
    (∃ leg, (stitchWaypointsIntoLegs [wpA, wpB, wpC] [] []).1.get? 0 = some leg ∧
      leg.departure = legPointOf wpA ∧ leg.arrival = legPointOf wpB) := by
  have h := stitch_pairs_positionally [wpA, wpB, wpC] [] []
  refine ⟨h.1, ?_, h.2.2 0 wpA wpB rfl rfl⟩
  intro habs
  have := h.2.1.mp habs
  simp at this

/-- A ticket with no extracted data. -/
def emptyTicket : ParsedTicket :=
  { carrier := "BA".toList, airlineLocator := none, passengers := [], segments := [],
    baggage := none, payments := [], tickets := [], fareNotes := none }

/-- A fully-populated ticket scoring the maximum 1.0. -/
def fullScoreTicket : ParsedTicket :=
  { carrier := "BA".toList, airlineLocator := some "ZL75AO".toList,
    passengers := [⟨"JOHN SMITH".toList⟩, ⟨"JANE SMITH".toList⟩],
    segments := [⟨"BA123".toList, ⟨none, none, none, none, none⟩, ⟨none, none, none, none, none⟩⟩,
                 ⟨"BA456".toList, ⟨none, none, none, none, none⟩, ⟨none, none, none, none, none⟩⟩],
    baggage := some "2 x 23kg".toList, payments := [⟨"USD".toList, 100⟩],
    tickets := [⟨"125-2214424598".toList, "JOHN SMITH".toList⟩],
    fareNotes := some "penalty applies".toList }

theorem assess_fullScoreTicket : assessExtractionQuality fullScoreTicket = 1 := by
  have hcrit : criticalSubscore fullScoreTicket = 40 := by
    have h : (match fullScoreTicket.airlineLocator with
        | some s => decide (5 ≤ s.length) | none => false) = true := by decide
    simp only [criticalSubscore, h]
    norm_num [fullScoreTicket]
  have hpass : passengerQualitySubscore fullScoreTicket.passengers = 30 := by
    have h1 : (fullScoreTicket.passengers.filter validPassengerB).length = 2 := by decide
    have h2 : fullScoreTicket.passengers.length = 2 := by decide
    simp only [passengerQualitySubscore, h1, h2]
    norm_num [min_def]
  have hseg : segmentQualitySubscore fullScoreTicket.segments = 20 := by
    have h1 : (fullScoreTicket.segments.filter validSegmentB).length = 2 := by decide
    have h2 : fullScoreTicket.segments.length = 2 := by decide
    simp only [segmentQualitySubscore, h1, h2]
    norm_num [min_def]
  have hext : extrasSubscore fullScoreTicket = 10 := by
    simp only [extrasSubscore]
    norm_num [fullScoreTicket]
  simp only [assessExtractionQuality, hcrit, hpass, hseg, hext]
  norm_num

/--
C6 counterexample.  The gate invokes the generative fallback even for a
deterministic result with the maximum score 1.0 (the acceptance
threshold was removed from `parseBA`): with Groq configured, the AI
path is taken unconditionally.
-/
theorem gate_invokes_at_max_score_cex :
    (parseBAGate true fullScoreTicket (some emptyTicket)).2 = true ∧
    assessExtractionQuality fullScoreTicket = 1 := by
  constructor
  · simp only [parseBAGate, if_true]
    split <;> rfl
  · exact assess_fullScoreTicket

/--
C6 (amended).  The BA parser invokes the generative fallback whenever
the generative service is configured — regardless of the deterministic
score — and, when both a deterministic and a generative result exist,
returns the one whose `assessExtractionQuality` score is strictly
higher, keeping the deterministic result otherwise (including when the
generative call fails).
-/
theorem gate_always_invokes_and_keeps_higher_score (cfg : Bool) (det ai : ParsedTicket) :
    ((parseBAGate cfg det (some ai)).2 = cfg) ∧
    ((parseBAGate cfg det none).2 = cfg) ∧
    ((parseBAGate cfg det (some ai)).1 =
      if assessExtractionQuality det < assessExtractionQuality ai ∧ cfg = true then ai else det) ∧
    ((parseBAGate cfg det none).1 = det) := by
  cases cfg
  · simp [parseBAGate]
  · simp only [parseBAGate, if_true]
    by_cases hq : assessExtractionQuality det < assessExtractionQuality ai
    · simp [hq, gt_iff_lt]
    · simp [hq, gt_iff_lt]

/--
C7 counterexample.  Adding a passenger whose name matches the blacklist
(`BAGGAGE`/`ALLOWANCE`/…) to a ticket with no passengers raises the
passenger-quality sub-score from 0 to 5, via the flat
`min(5 * count, 10)` passenger-count bonus, which counts invalid
passengers too.
-/
theorem blacklisted_passenger_raises_subscore_cex :
    passengerQualitySubscore [{ fullName := "BAGGAGE ALLOWANCE".toList }] = 5 ∧
    passengerQualitySubscore [] = 0 ∧
    passengerQualitySubscore [] <
      passengerQualitySubscore [{ fullName := "BAGGAGE ALLOWANCE".toList }] := by
  have h5 : passengerQualitySubscore [{ fullName := "BAGGAGE ALLOWANCE".toList }] = 5 := by
    have h1 : (List.filter validPassengerB [{ fullName := "BAGGAGE ALLOWANCE".toList }]) =
        ([] : List Passenger) := by decide
    simp only [passengerQualitySubscore, h1]
    norm_num [min_def]
  have h0 : passengerQualitySubscore [] = 0 := by
    simp [passengerQualitySubscore]
  exact ⟨h5, h0, by rw [h5, h0]; norm_num⟩

theorem validPassengerB_of_blacklisted {name : List Char}
    (hblack : (containsSub name "BAGGAGE".toList || containsSub name "ALLOWANCE".toList ||
               containsSub name "FLIGHT".toList || containsSub name "TICKET".toList) = true) :
    validPassengerB { fullName := name } = false := by
  simp only [validPassengerB, hblack]
  simp

/--
C7 (amended).  (i) Adding a booking reference of at least five
characters to an otherwise-empty ticket strictly increases the score.
(ii) Adding a passenger whose name matches a blacklisted phrase never
increases the name-quality ratio, and for tickets that already have at
least two passengers it does not increase the passenger-quality
sub-score at all; with fewer than two passengers the flat
passenger-count bonus can still raise the sub-score (see the
counterexample).
-/
theorem booking_ref_increases_and_blacklist_capped
    (loc : List Char) (hloc : 5 ≤ loc.length)
    (ps : List Passenger) (name : List Char) (hps : 2 ≤ ps.length)
    (hblack : (containsSub name "BAGGAGE".toList || containsSub name "ALLOWANCE".toList ||
               containsSub name "FLIGHT".toList || containsSub name "TICKET".toList) = true) :
    assessExtractionQuality emptyTicket <
      assessExtractionQuality { emptyTicket with airlineLocator := some loc } ∧
    passengerQualitySubscore (ps ++ [(Passenger.mk name)]) ≤ passengerQualitySubscore ps := by
  constructor
  · have h0 : assessExtractionQuality emptyTicket = 0 := by
      simp [assessExtractionQuality, criticalSubscore, passengerQualitySubscore,
        segmentQualitySubscore, extrasSubscore, emptyTicket]
    have h1 : assessExtractionQuality { emptyTicket with airlineLocator := some loc } =
        3 / 20 := by
      simp only [assessExtractionQuality, criticalSubscore, passengerQualitySubscore,
        segmentQualitySubscore, extrasSubscore, emptyTicket, decide_eq_true hloc]
      norm_num
    rw [h0, h1]
    norm_num
  · have hinvalid := validPassengerB_of_blacklisted hblack
    have hlen : (ps ++ [(Passenger.mk name)]).length = ps.length + 1 := by simp
    have hfilter : (ps ++ [(Passenger.mk name)]).filter validPassengerB =
        ps.filter validPassengerB := by
      rw [List.filter_append]
      simp [List.filter, hinvalid]
    simp only [passengerQualitySubscore, hlen, hfilter]
    rw [if_pos (by omega), if_pos (by omega)]
    have hq2 : (2 : ℚ) ≤ (ps.length : ℚ) := by exact_mod_cast hps
    have hmin1 : min (((ps.length + 1 : ℕ) : ℚ) * 5) 10 = 10 := by
      apply min_eq_right
      push_cast
      linarith
    have hmin2 : min ((ps.length : ℚ) * 5) 10 = 10 := by
      apply min_eq_right
      linarith
    rw [hmin1, hmin2]
    have hdiv : ((ps.filter validPassengerB).length : ℚ) / (((ps.length + 1 : ℕ)) : ℚ) ≤
        ((ps.filter validPassengerB).length : ℚ) / (ps.length : ℚ) := by
      apply div_le_div_of_nonneg_left
      · positivity
      · linarith
      · push_cast
        linarith
    have := mul_le_mul_of_nonneg_right hdiv (by norm_num : (0 : ℚ) ≤ 20)
    linarith

/-- Witness for C7 (amended) at a concrete locator and passenger list. -/
theorem booking_ref_blacklist_witness :
    assessExtractionQuality emptyTicket <
      assessExtractionQuality { emptyTicket with airlineLocator := some "ABC123".toList } ∧
    passengerQualitySubscore
        ([⟨"JOHN SMITH".toList⟩, ⟨"JANE SMITH".toList⟩] ++
          [{ fullName := "BAGGAGE ALLOWANCE".toList }]) ≤
      passengerQualitySubscore [⟨"JOHN SMITH".toList⟩, ⟨"JANE SMITH".toList⟩] := by
  exact booking_ref_increases_and_blacklist_capped "ABC123".toList (by decide)
    [⟨"JOHN SMITH".toList⟩, ⟨"JANE SMITH".toList⟩] "BAGGAGE ALLOWANCE".toList
    (by decide) (by decide)

theorem colon_decide_of_digit {c : Char} (h : isDigitChar c = true) :
    decide (':' = c) = false := by
  simp only [decide_eq_false_iff_not]
  intro heq
  rw [← heq] at h
  revert h
  decide

theorem ne_colon_decide_of_digit {c : Char} (h : isDigitChar c = true) :
    decide (c ≠ ':') = true := by
  rw [decide_eq_true_eq]
  intro heq
  subst heq
  revert h
  decide

theorem parseIntPre_two {c1 c2 : Char} (h1 : isDigitChar c1 = true)
    (h2 : isDigitChar c2 = true) :
    parseIntPre [c1, c2] = digitVal c1 * 10 + digitVal c2 := by
  simp [parseIntPre, List.takeWhile, h1, h2]

theorem hourOfTimeStr_eval {a1 a2 a3 a4 : Char} (h1 : isDigitChar a1 = true)
    (h2 : isDigitChar a2 = true) :
    hourOfTimeStr [a1, a2, ':', a3, a4] = digitVal a1 * 10 + digitVal a2 := by
  have e1 := colon_decide_of_digit h1
  have e2 := colon_decide_of_digit h2
  have n1 := ne_colon_decide_of_digit h1
  have n2 := ne_colon_decide_of_digit h2
  simp only [hourOfTimeStr, indexOfSub, leadsWith, e1, e2, Bool.false_and, Bool.and_true,
    if_false, Option.map, List.takeWhile, List.dropWhile, n1, n2]
  simp [parseIntPre_two h1 h2, List.take]

theorem splitColonNums_eval {a1 a2 a3 a4 : Char} (h1 : isDigitChar a1 = true)
    (h2 : isDigitChar a2 = true) (h3 : isDigitChar a3 = true) (h4 : isDigitChar a4 = true) :
    splitColonNums [a1, a2, ':', a3, a4] =
      (digitVal a1 * 10 + digitVal a2, digitVal a3 * 10 + digitVal a4) := by
  have n1 := ne_colon_decide_of_digit h1
  have n2 := ne_colon_decide_of_digit h2
  have n3 := ne_colon_decide_of_digit h3
  have n4 := ne_colon_decide_of_digit h4
  have ncc : decide ((':' : Char) ≠ ':') = false := by decide
  simp only [splitColonNums, List.takeWhile, List.dropWhile, n1, n2, n3, n4, ncc]
  rw [parseIntPre_two h1 h2, parseIntPre_two h3 h4]

set_option maxHeartbeats 1000000 in
/--
C4.  For a segment whose arrival date (and parsed arrival) is missing
while the departure date-time and both time strings are known, date
inference sets the arrival to the departure day plus one exactly when
the arrival hour is more than 12 hours earlier than the departure hour
(`arrHour < depHour - 12`), and to the same day otherwise; the arrival
is marked inferred with medium confidence and the time of day is the
normalized arrival time.
-/
theorem overnight_arrival_inference
    (now : MDT) (fn depDateStr depT arrT : List Char)
    (D : Int) (depMin : Nat) (di ai : Bool) (dc ac : Conf)
    (a1 a2 a3 a4 d1 d2 d3 d4 : Char)
    (ha1 : isDigitChar a1 = true) (ha2 : isDigitChar a2 = true)
    (ha3 : isDigitChar a3 = true) (ha4 : isDigitChar a4 = true)
    (hd1 : isDigitChar d1 = true) (hd2 : isDigitChar d2 = true)
    (haT : normalizeTimeString arrT = some [a1, a2, ':', a3, a4])
    (hdT : normalizeTimeString depT = some [d1, d2, ':', d3, d4])
    (hbH : digitVal a1 * 10 + digitVal a2 ≤ 23)
    (hbM : digitVal a3 * 10 + digitVal a4 ≤ 59) :
    inferOnlyMissingDates now
      [⟨fn, ⟨some depDateStr, some depT, some ⟨D, depMin⟩, di, dc⟩,
            ⟨none, some arrT, none, ai, ac⟩⟩] =
      Except.ok
        [⟨fn, ⟨some depDateStr, some depT, some ⟨D, depMin⟩, di, dc⟩,
              ⟨none, some arrT,
               some ⟨D + (if ((digitVal a1 * 10 + digitVal a2 : Nat) : Int) <
                            ((digitVal d1 * 10 + digitVal d2 : Nat) : Int) - 12
                          then 1 else 0),
                     (digitVal a1 * 10 + digitVal a2) * 60 +
                       (digitVal a3 * 10 + digitVal a4)⟩,
               true, Conf.medium⟩⟩] := by
  have harr : inferArrStep
      ⟨fn, ⟨some depDateStr, some depT, some ⟨D, depMin⟩, di, dc⟩,
           ⟨none, some arrT, none, ai, ac⟩⟩ =
      Except.ok
        ⟨fn, ⟨some depDateStr, some depT, some ⟨D, depMin⟩, di, dc⟩,
             ⟨none, some arrT,
              some ⟨D + (if ((digitVal a1 * 10 + digitVal a2 : Nat) : Int) <
                           ((digitVal d1 * 10 + digitVal d2 : Nat) : Int) - 12
                         then 1 else 0),
                    (digitVal a1 * 10 + digitVal a2) * 60 +
                      (digitVal a3 * 10 + digitVal a4)⟩,
              true, Conf.medium⟩⟩ := by
    simp only [inferArrStep, haT, hdT]
    rw [if_pos (by simp)]
    simp only [hourOfTimeStr_eval ha1 ha2, hourOfTimeStr_eval hd1 hd2,
      splitColonNums_eval ha1 ha2 ha3 ha4, setUTCHoursMin]
    have hlt : (digitVal a1 * 10 + digitVal a2) * 60 +
        (digitVal a3 * 10 + digitVal a4) < 1440 := by omega
    rw [Nat.div_eq_of_lt hlt, Nat.mod_eq_of_lt hlt]
    simp only [Nat.cast_zero, add_zero, addDays]
    split
    · rfl
    · simp
  simp only [inferOnlyMissingDates, inferLoop, inferStep, harr]
  have hfp : inferDepFromPrev none
      ⟨fn, ⟨some depDateStr, some depT, some ⟨D, depMin⟩, di, dc⟩,
           ⟨none, some arrT,
            some ⟨D + (if ((digitVal a1 * 10 + digitVal a2 : Nat) : Int) <
                         ((digitVal d1 * 10 + digitVal d2 : Nat) : Int) - 12
                       then 1 else 0),
                  (digitVal a1 * 10 + digitVal a2) * 60 +
                    (digitVal a3 * 10 + digitVal a4)⟩,
            true, Conf.medium⟩⟩ =
      ⟨fn, ⟨some depDateStr, some depT, some ⟨D, depMin⟩, di, dc⟩,
           ⟨none, some arrT,
            some ⟨D + (if ((digitVal a1 * 10 + digitVal a2 : Nat) : Int) <
                         ((digitVal d1 * 10 + digitVal d2 : Nat) : Int) - 12
                       then 1 else 0),
                  (digitVal a1 * 10 + digitVal a2) * 60 +
                    (digitVal a3 * 10 + digitVal a4)⟩,
            true, Conf.medium⟩⟩ := rfl
  rw [hfp]
  simp [inferDepFallback]

set_option maxHeartbeats 1000000 in
/--
Witness for C4: departure `22:10` on day `D` with arrival time `06:15`
and no arrival date infers day `D + 1` (minute 375 = 06:15); departure
`14:30` / arrival `17:45` stays on day `D` (minute 1065 = 17:45).
-/
theorem overnight_arrival_witness :
    inferOnlyMissingDates ⟨0, 0⟩
        [⟨"SA052".toList,
          ⟨some "28 Sep 2025".toList, some "22:10".toList, some ⟨100, 1330⟩, false, Conf.high⟩,
          ⟨none, some "06:15".toList, none, false, Conf.low⟩⟩] =
      Except.ok
        [⟨"SA052".toList,
          ⟨some "28 Sep 2025".toList, some "22:10".toList, some ⟨100, 1330⟩, false, Conf.high⟩,
          ⟨none, some "06:15".toList, some ⟨101, 375⟩, true, Conf.medium⟩⟩] ∧
    inferOnlyMissingDates ⟨0, 0⟩
        [⟨"SA052".toList,
          ⟨some "28 Sep 2025".toList, some "14:30".toList, some ⟨100, 870⟩, false, Conf.high⟩,
          ⟨none, some "17:45".toList, none, false, Conf.low⟩⟩] =
      Except.ok
        [⟨"SA052".toList,
          ⟨some "28 Sep 2025".toList, some "14:30".toList, some ⟨100, 870⟩, false, Conf.high⟩,
          ⟨none, some "17:45".toList, some ⟨100, 1065⟩, true, Conf.medium⟩⟩] := by
  constructor
  · have h := overnight_arrival_inference ⟨0, 0⟩ "SA052".toList "28 Sep 2025".toList
      "22:10".toList "06:15".toList 100 1330 false false Conf.high Conf.low
      '0' '6' '1' '5' '2' '2' '1' '0'
      (by decide) (by decide) (by decide) (by decide) (by decide) (by decide)
      (by decide) (by decide) (by decide) (by decide)
    rw [h]
    congr 1
  · have h := overnight_arrival_inference ⟨0, 0⟩ "SA052".toList "28 Sep 2025".toList
      "14:30".toList "17:45".toList 100 870 false false Conf.high Conf.low
      '1' '7' '4' '5' '1' '4' '3' '0'
      (by decide) (by decide) (by decide) (by decide) (by decide) (by decide)
      (by decide) (by decide) (by decide) (by decide)
    rw [h]
    congr 1

/-! ## Well-formed `HH:MM <City>` / `(IATA)` line pairs -/

/-- One well-formed time/city/IATA triple, as printed on two lines. -/
structure WpTriple where
  th1 : Char
  th2 : Char
  tm1 : Char
  tm2 : Char
  city : List Char
  ia1 : Char
  ia2 : Char
  ia3 : Char
  deriving DecidableEq, Repr

def WpTriple.wfT (t : WpTriple) : Prop :=
  isDigitChar t.th1 = true ∧ isDigitChar t.th2 = true ∧ isDigitChar t.tm1 = true ∧
  isDigitChar t.tm2 = true ∧ isUpperAZ t.ia1 = true ∧ isUpperAZ t.ia2 = true ∧
  isUpperAZ t.ia3 = true ∧ t.city.all (fun c => c ≠ '\n') = true

instance (t : WpTriple) : Decidable t.wfT := by
  unfold WpTriple.wfT
  infer_instance

def WpTriple.timeStrW (t : WpTriple) : List Char :=
  [t.th1, t.th2, ':', t.tm1, t.tm2]

def WpTriple.iataStrW (t : WpTriple) : List Char :=
  [t.ia1, t.ia2, t.ia3]

/-- The `HH:MM City` line. -/
def WpTriple.timeLineW (t : WpTriple) : List Char :=
  t.timeStrW ++ ' ' :: t.city

/-- The `(IATA)` line. -/
def WpTriple.iataLineW (t : WpTriple) : List Char :=
  '(' :: t.ia1 :: t.ia2 :: t.ia3 :: [')']

def tripleLines : List WpTriple → List (List Char)
  | [] => []
  | t :: ts => t.timeLineW :: t.iataLineW :: tripleLines ts

def intercalateNl : List (List Char) → List Char
  | [] => []
  | [l] => l
  | l :: ls => l ++ '\n' :: intercalateNl ls

/-- The normalized text holding the header and the triple blocks. -/
def tripleText (ts : List WpTriple) : List Char :=
  intercalateNl ("Itinerary details".toList :: tripleLines ts)

/-! ### Splitting the generated text back into its lines -/

theorem splitOnChar_sepfree (sep : Char) :
    ∀ l : List Char, l.all (fun c => c ≠ sep) = true → splitOnChar sep l = [l]
  | [], _ => rfl
  | c :: rest, h => by
    simp only [List.all_cons, Bool.and_eq_true, decide_eq_true_eq] at h
    simp only [splitOnChar, if_neg h.1]
    rw [splitOnChar_sepfree sep rest h.2]

theorem splitOnChar_append (sep : Char) :
    ∀ (l r : List Char), l.all (fun c => c ≠ sep) = true →
      splitOnChar sep (l ++ sep :: r) = l :: splitOnChar sep r
  | [], r, _ => by simp [splitOnChar]
  | c :: rest, r, h => by
    simp only [List.all_cons, Bool.and_eq_true, decide_eq_true_eq] at h
    simp only [List.cons_append, splitOnChar, if_neg h.1, List.append_eq]
    rw [splitOnChar_append sep rest r h.2]

theorem splitOnChar_intercalateNl :
    ∀ ls : List (List Char), (∀ l ∈ ls, l.all (fun c => c ≠ '\n') = true) → ls ≠ [] →
      splitOnChar '\n' (intercalateNl ls) = ls
  | [], _, hne => absurd rfl hne
  | [l], h, _ => by
    simp only [intercalateNl]
    exact splitOnChar_sepfree '\n' l (h l (by simp))
  | l :: l2 :: ls, h, _ => by
    simp only [intercalateNl]
    rw [splitOnChar_append '\n' l _ (h l (by simp))]
    rw [splitOnChar_intercalateNl (l2 :: ls) (fun x hx => h x (by simp [hx])) (by simp)]

theorem leadsWith_append : ∀ (pat rest : List Char), leadsWith pat (pat ++ rest) = true
  | [], _ => rfl
  | p :: ps, rest => by
    simp only [List.cons_append, leadsWith, List.append_eq]
    rw [leadsWith_append ps rest]
    simp

theorem indexOfSub_zero {l pat : List Char} (h : leadsWith pat l = true) :
    indexOfSub l pat = some 0 := by
  cases l
  · simp [indexOfSub, h]
  · simp [indexOfSub, h]

/-! ### Trimming lines with a non-space prefix -/

theorem dropWhile_append_stop (p : Char → Bool) :
    ∀ (xs : List Char) (c : Char) (zs : List Char), p c = false →
      List.dropWhile p (xs ++ c :: zs) = List.dropWhile p xs ++ c :: zs
  | [], c, zs, hc => by simp [List.dropWhile, hc]
  | x :: xs, c, zs, hc => by
    simp only [List.cons_append, List.dropWhile_cons]
    cases hx : p x
    · simp
    · simp only [if_pos rfl]
      simpa using dropWhile_append_stop p xs c zs hc

/--
For a line `pre ++ suf` whose `pre` part has no whitespace (and is
nonempty), JS `trim` keeps `pre` intact and only right-trims `suf`.
-/
theorem trimJS_pre (pre suf : List Char) (hh : pre.all (fun c => !isSpaceJS c) = true)
    (hne : pre ≠ []) :
    trimJS (pre ++ suf) = pre ++ (suf.reverse.dropWhile isSpaceJS).reverse := by
  match pre, hne with
  | c :: rest, _ =>
    simp only [List.all_cons, Bool.and_eq_true] at hh
    have hc : isSpaceJS c = false := by
      cases h : isSpaceJS c
      · rfl
      · rw [h] at hh
        simp at hh
    obtain ⟨z, ys, hrev⟩ : ∃ z ys, (c :: rest).reverse = z :: ys := by
      cases hr : (c :: rest).reverse with
      | nil =>
        have := congrArg List.length hr
        simp at this
      | cons z ys => exact ⟨z, ys, rfl⟩
    have hz : isSpaceJS z = false := by
      have hzmem : z ∈ (c :: rest).reverse := by
        rw [hrev]
        exact List.mem_cons_self z ys
      rw [List.mem_reverse] at hzmem
      rcases List.mem_cons.mp hzmem with hzc | hzr
      · rw [hzc]
        exact hc
      · have := List.all_eq_true.mp hh.2 z hzr
        simpa using this
    have h2 : c :: rest = ys.reverse ++ [z] := by
      have h3 := congrArg List.reverse hrev
      simpa using h3
    simp only [trimJS, List.cons_append, List.dropWhile_cons, hc]
    simp only [Bool.false_eq_true, if_false]
    rw [← List.cons_append, List.reverse_append, hrev]
    rw [dropWhile_append_stop isSpaceJS suf.reverse z ys hz]
    rw [List.reverse_append, List.reverse_cons, ← h2]
    simp

theorem toNat_bounds_of_digit {c : Char} (h : isDigitChar c = true) :
    48 ≤ c.toNat ∧ c.toNat ≤ 57 := by
  simpa [isDigitChar, Bool.and_eq_true, decide_eq_true_eq] using h

theorem toNat_bounds_of_upper {c : Char} (h : isUpperAZ c = true) :
    65 ≤ c.toNat ∧ c.toNat ≤ 90 := by
  simpa [isUpperAZ, Bool.and_eq_true, decide_eq_true_eq] using h

theorem not_space_of_digit {c : Char} (h : isDigitChar c = true) : isSpaceJS c = false := by
  obtain ⟨h1, h2⟩ := toNat_bounds_of_digit h
  cases hs : isSpaceJS c
  · rfl
  · exfalso
    simp only [isSpaceJS, Bool.or_eq_true, Bool.and_eq_true, decide_eq_true_eq] at hs
    omega

theorem not_space_of_upper {c : Char} (h : isUpperAZ c = true) : isSpaceJS c = false := by
  obtain ⟨h1, h2⟩ := toNat_bounds_of_upper h
  cases hs : isSpaceJS c
  · rfl
  · exfalso
    simp only [isSpaceJS, Bool.or_eq_true, Bool.and_eq_true, decide_eq_true_eq] at hs
    omega

theorem ne_colon_of_upper {c : Char} (h : isUpperAZ c = true) : c ≠ ':' := by
  obtain ⟨h1, h2⟩ := toNat_bounds_of_upper h
  intro he
  subst he
  revert h1
  decide

theorem ne_colon_of_digit {c : Char} (h : isDigitChar c = true) : c ≠ ':' := by
  obtain ⟨h1, h2⟩ := toNat_bounds_of_digit h
  intro he
  subst he
  revert h2
  decide

theorem digit_ne_of_toNat {c : Char} (h : isDigitChar c = true) (d : Char)
    (hd : ¬(48 ≤ d.toNat ∧ d.toNat ≤ 57)) : decide (c = d) = false := by
  obtain ⟨h1, h2⟩ := toNat_bounds_of_digit h
  simp only [decide_eq_false_iff_not]
  intro he
  subst he
  exact hd ⟨h1, h2⟩

/-- JS `trim` is the identity on nonempty all-non-space strings. -/
theorem trimJS_nospace (l : List Char) (h : l.all (fun c => !isSpaceJS c) = true)
    (hne : l ≠ []) : trimJS l = l := by
  have h2 := trimJS_pre l [] h hne
  simpa using h2

theorem parenIataAt_eval (a b c : Char) (rest : List Char) (ha : isUpperAZ a = true)
    (hb : isUpperAZ b = true) (hc : isUpperAZ c = true) :
    parenIataAt ('(' :: a :: b :: c :: ')' :: rest) = some [a, b, c] := by
  simp [parenIataAt, ha, hb, hc]

theorem iataLineW_nospace (t : WpTriple) (h : t.wfT) :
    t.iataLineW.all (fun c => !isSpaceJS c) = true := by
  obtain ⟨_, _, _, _, h5, h6, h7, _⟩ := h
  simp only [WpTriple.iataLineW, List.all_cons, List.all_nil, not_space_of_upper h5,
    not_space_of_upper h6, not_space_of_upper h7, Bool.not_false, Bool.and_true,
    Bool.true_and]
  decide

theorem timeStrW_nospace (t : WpTriple) (h : t.wfT) :
    t.timeStrW.all (fun c => !isSpaceJS c) = true := by
  obtain ⟨h1, h2, h3, h4, _, _, _, _⟩ := h
  simp only [WpTriple.timeStrW, List.all_cons, List.all_nil, not_space_of_digit h1,
    not_space_of_digit h2, not_space_of_digit h3, not_space_of_digit h4, Bool.not_false,
    Bool.and_true, Bool.true_and]
  decide

/-- The `(IATA)` line never opens a waypoint. -/
theorem timeLineMatch_iataLine (t : WpTriple) (h : t.wfT) :
    timeLineMatch (trimJS t.iataLineW) = none := by
  rw [trimJS_nospace t.iataLineW (iataLineW_nospace t h) (by simp [WpTriple.iataLineW])]
  obtain ⟨_, _, _, _, h5, h6, _, _⟩ := h
  simp [WpTriple.iataLineW, timeLineMatch, ne_colon_of_upper h5, ne_colon_of_upper h6]

/-- The time line is matched by the line-opening time pattern. -/
theorem timeLineMatch_timeLine (t : WpTriple) (h : t.wfT) :
    timeLineMatch (trimJS t.timeLineW) =
      some (t.timeStrW,
        (((' ' :: t.city).reverse.dropWhile isSpaceJS).reverse).dropWhile isSpaceJS) := by
  obtain ⟨h1, h2, h3, h4, h5, h6, h7, h8⟩ := h
  have htrim := trimJS_pre t.timeStrW (' ' :: t.city)
    (timeStrW_nospace t ⟨h1, h2, h3, h4, h5, h6, h7, h8⟩) (by simp [WpTriple.timeStrW])
  have hline : trimJS t.timeLineW =
      t.timeStrW ++ ((' ' :: t.city).reverse.dropWhile isSpaceJS).reverse := htrim
  rw [hline]
  simp only [WpTriple.timeStrW, List.cons_append, List.nil_append, timeLineMatch,
    ne_colon_of_digit h2]
  simp [h1, h2, h3, h4]

/-- The waypoint `processLine` produces for a well-formed triple at line `i`. -/
def mkExpectedWp (lines : List (List Char)) (t : WpTriple) (i : Nat) : Waypoint :=
  { time := t.timeStrW, location := t.iataStrW,
    isNextDay := containsSub (surroundingOf lines i) "+1 day".toList ||
                 containsSub (surroundingOf lines i) "(+1 day)".toList ||
                 containsSub (surroundingOf lines i) "+1".toList,
    terminal := findTerminal (surroundingOf lines i),
    contextIndex := i }

def expectedWps (lines : List (List Char)) : List WpTriple → Nat → List Waypoint
  | [], _ => []
  | t :: ts, i => mkExpectedWp lines t i :: expectedWps lines ts (i + 2)

theorem processLine_none_of_get (lines : List (List Char))
    (map : List (List Char × List Char)) (i : Nat) (seen : List (List Char))
    (h : lines[i]? = none) : processLine lines map i seen = none := by
  simp [processLine, h]

theorem processLine_none_of_noTime (lines : List (List Char))
    (map : List (List Char × List Char)) (i : Nat) (seen : List (List Char))
    (raw : List Char) (hline : lines[i]? = some raw)
    (ht : timeLineMatch (trimJS raw) = none) : processLine lines map i seen = none := by
  simp only [processLine, List.get?_eq_getElem?, hline]
  split
  · rfl
  · simp [ht]

theorem processLine_timeLine (lines : List (List Char)) (map : List (List Char × List Char))
    (i : Nat) (seen : List (List Char)) (t : WpTriple) (hwf : t.wfT)
    (hline : lines[i]? = some t.timeLineW)
    (hnext : lines[i + 1]? = some t.iataLineW)
    (hseen : seen.contains (wpKey t.timeStrW t.iataStrW) = false) :
    processLine lines map i seen = some (mkExpectedWp lines t i) := by
  obtain ⟨h1, h2, h3, h4, h5, h6, h7, h8⟩ := hwf
  have hline2 : trimJS t.timeLineW =
      t.timeStrW ++ ((' ' :: t.city).reverse.dropWhile isSpaceJS).reverse :=
    trimJS_pre t.timeStrW (' ' :: t.city)
      (timeStrW_nospace t ⟨h1, h2, h3, h4, h5, h6, h7, h8⟩) (by simp [WpTriple.timeStrW])
  have hd1 : decide (trimJS t.timeLineW = []) = false := by
    rw [hline2]
    simp [WpTriple.timeStrW]
  have hd2 : decide (trimJS t.timeLineW = "Itinerary details".toList) = false := by
    rw [hline2]
    simp only [decide_eq_false_iff_not]
    intro he
    rw [show "Itinerary details".toList = 'I' :: "tinerary details".toList from rfl] at he
    simp only [WpTriple.timeStrW, List.cons_append, List.cons.injEq] at he
    obtain ⟨b1, b2⟩ := toNat_bounds_of_digit h1
    rw [he.1] at b2
    revert b2
    decide
  have hd3 : decide (trimJS t.timeLineW = "Your fare".toList) = false := by
    rw [hline2]
    simp only [decide_eq_false_iff_not]
    intro he
    rw [show "Your fare".toList = 'Y' :: "our fare".toList from rfl] at he
    simp only [WpTriple.timeStrW, List.cons_append, List.cons.injEq] at he
    obtain ⟨b1, b2⟩ := toNat_bounds_of_digit h1
    rw [he.1] at b2
    revert b2
    decide
  have hmatch := timeLineMatch_timeLine t ⟨h1, h2, h3, h4, h5, h6, h7, h8⟩
  have hloc : ∀ city : List Char,
      resolveLocation lines[i + 1]? city map = t.iataStrW := by
    intro city
    rw [hnext]
    simp only [resolveLocation, WpTriple.iataLineW, findParenIata,
      parenIataAt_eval t.ia1 t.ia2 t.ia3 [] h5 h6 h7]
    simp [WpTriple.iataStrW]
  simp only [processLine, List.get?_eq_getElem?, hline, hd1, hd2, hd3, Bool.or_self,
    Bool.false_or, if_false, Bool.false_eq_true, hmatch, hloc, hseen]
  simp [WpTriple.iataStrW, mkExpectedWp]

theorem ne_nl_of_not_space {c : Char} (h : isSpaceJS c = false) :
    decide (c ≠ '\n') = true := by
  rw [decide_eq_true_eq]
  intro he
  subst he
  revert h
  decide

theorem timeLineW_nlfree (t : WpTriple) (h : t.wfT) :
    t.timeLineW.all (fun c => c ≠ '\n') = true := by
  obtain ⟨h1, h2, h3, h4, _, _, _, h8⟩ := h
  simp only [WpTriple.timeLineW, WpTriple.timeStrW, List.cons_append, List.nil_append,
    List.all_cons, ne_nl_of_not_space (not_space_of_digit h1),
    ne_nl_of_not_space (not_space_of_digit h2), ne_nl_of_not_space (not_space_of_digit h3),
    ne_nl_of_not_space (not_space_of_digit h4), h8, Bool.and_true, Bool.true_and]
  decide

theorem iataLineW_nlfree (t : WpTriple) (h : t.wfT) :
    t.iataLineW.all (fun c => c ≠ '\n') = true := by
  obtain ⟨_, _, _, _, h5, h6, h7, _⟩ := h
  simp only [WpTriple.iataLineW, List.all_cons, List.all_nil,
    ne_nl_of_not_space (not_space_of_upper h5), ne_nl_of_not_space (not_space_of_upper h6),
    ne_nl_of_not_space (not_space_of_upper h7), Bool.and_true, Bool.true_and]
  decide

theorem tripleLines_nlfree : ∀ ts : List WpTriple, (∀ t ∈ ts, t.wfT) →
    ∀ l ∈ tripleLines ts, l.all (fun c => c ≠ '\n') = true
  | [], _, l, hl => absurd hl (by simp [tripleLines])
  | t :: ts, hwf, l, hl => by
    simp only [tripleLines, List.mem_cons] at hl
    rcases hl with hl | hl | hl
    · subst hl
      exact timeLineW_nlfree t (hwf t (by simp))
    · subst hl
      exact iataLineW_nlfree t (hwf t (by simp))
    · exact tripleLines_nlfree ts (fun x hx => hwf x (by simp [hx])) l hl

theorem tripleLines_length : ∀ ts : List WpTriple, (tripleLines ts).length = 2 * ts.length
  | [] => rfl
  | t :: ts => by
    simp only [tripleLines, List.length_cons, tripleLines_length ts]
    omega

theorem wpLoop_triples (map : List (List Char × List Char)) (lines : List (List Char)) :
    ∀ (ts : List WpTriple) (i : Nat) (seen : List (List Char)),
      (∀ t ∈ ts, t.wfT) →
      lines.drop i = tripleLines ts →
      (∀ t ∈ ts, seen.contains (wpKey t.timeStrW t.iataStrW) = false) →
      (ts.map fun t => wpKey t.timeStrW t.iataStrW).Nodup →
      wpLoop lines map (2 * ts.length) i seen = expectedWps lines ts i
  | [], _, _, _, _, _, _ => rfl
  | t :: ts, i, seen, hwf, hdrop, hseen, hdup => by
    have hget1 : lines[i]? = some t.timeLineW := by
      have h0 : (lines.drop i)[0]? = some t.timeLineW := by
        rw [hdrop]
        simp [tripleLines]
      rw [List.getElem?_drop] at h0
      simpa using h0
    have hget2 : lines[i + 1]? = some t.iataLineW := by
      have h0 : (lines.drop i)[1]? = some t.iataLineW := by
        rw [hdrop]
        simp [tripleLines]
      rw [List.getElem?_drop] at h0
      exact h0
    have hdrop2 : lines.drop (i + 2) = tripleLines ts := by
      have h0 : lines.drop (i + 2) = (lines.drop i).drop 2 := by
        rw [List.drop_drop]
      rw [h0, hdrop]
      rfl
    rw [show 2 * (t :: ts).length = (2 * ts.length + 1) + 1 by simp; omega]
    simp only [wpLoop]
    rw [processLine_timeLine lines map i seen t (hwf t (by simp)) hget1 hget2
      (hseen t (by simp))]
    simp only [wpLoop, mkExpectedWp]
    rw [processLine_none_of_noTime lines map (i + 1) _ t.iataLineW hget2
      (timeLineMatch_iataLine t (hwf t (by simp)))]
    have hdup2 : (ts.map fun x => wpKey x.timeStrW x.iataStrW).Nodup := by
      simp only [List.map_cons, List.nodup_cons] at hdup
      exact hdup.2
    have hnotmem : wpKey t.timeStrW t.iataStrW ∉ ts.map fun x => wpKey x.timeStrW x.iataStrW := by
      simp only [List.map_cons, List.nodup_cons] at hdup
      exact hdup.1
    have hseen2 : ∀ x ∈ ts,
        (wpKey t.timeStrW t.iataStrW :: seen).contains (wpKey x.timeStrW x.iataStrW) = false := by
      intro x hx
      have hne : wpKey x.timeStrW x.iataStrW ≠ wpKey t.timeStrW t.iataStrW := by
        intro he
        exact hnotmem (he ▸ List.mem_map_of_mem (fun y => wpKey y.timeStrW y.iataStrW) hx)
      simp only [List.contains_cons, beq_eq_false_iff_ne.mpr hne, Bool.false_or]
      exact hseen x (by simp [hx])
    rw [wpLoop_triples map lines ts (i + 2) _ (fun x hx => hwf x (by simp [hx])) hdrop2
      hseen2 hdup2]
    rfl

theorem expectedWps_ctx_ge (lines : List (List Char)) :
    ∀ (ts : List WpTriple) (i : Nat), ∀ w ∈ expectedWps lines ts i, i ≤ w.contextIndex
  | [], _, w, hw => absurd hw (by simp [expectedWps])
  | t :: ts, i, w, hw => by
    simp only [expectedWps, List.mem_cons] at hw
    rcases hw with hw | hw
    · subst hw
      simp [mkExpectedWp]
    · have := expectedWps_ctx_ge lines ts (i + 2) w hw
      omega

theorem sortByCtx_expected (lines : List (List Char)) :
    ∀ (ts : List WpTriple) (i : Nat),
      sortByCtx (expectedWps lines ts i) = expectedWps lines ts i
  | [], _ => rfl
  | t :: ts, i => by
    simp only [expectedWps, sortByCtx]
    rw [sortByCtx_expected lines ts (i + 2)]
    cases hE : expectedWps lines ts (i + 2) with
    | nil => rfl
    | cons v vs =>
      have hv : i + 2 ≤ v.contextIndex :=
        expectedWps_ctx_ge lines ts (i + 2) v (by rw [hE]; simp)
      simp only [insertByCtx]
      rw [if_pos (by simp only [mkExpectedWp]; omega)]

theorem extractWaypoints_triples (map : List (List Char × List Char)) (ts : List WpTriple)
    (hwf : ∀ t ∈ ts, t.wfT)
    (hdup : (ts.map fun t => wpKey t.timeStrW t.iataStrW).Nodup) :
    extractWaypoints (tripleText ts) map =
      expectedWps ("Itinerary details".toList :: tripleLines ts) ts 1 := by
  have hlines : splitOnChar '\n' (tripleText ts) =
      "Itinerary details".toList :: tripleLines ts := by
    apply splitOnChar_intercalateNl
    · intro l hl
      rcases List.mem_cons.mp hl with h | h
      · subst h
        decide
      · exact tripleLines_nlfree ts hwf l h
    · simp
  have hstart : ∃ rest, tripleText ts = "Itinerary details".toList ++ rest := by
    cases ts with
    | nil => exact ⟨[], by simp [tripleText, tripleLines, intercalateNl]⟩
    | cons t ts' =>
      exact ⟨'\n' :: intercalateNl (tripleLines (t :: ts')),
        by simp [tripleText, tripleLines, intercalateNl]⟩
  have hidx : indexOfSub (tripleText ts) "Itinerary details".toList = some 0 := by
    obtain ⟨rest, hrest⟩ := hstart
    rw [hrest]
    exact indexOfSub_zero (leadsWith_append _ _)
  simp only [extractWaypoints, hidx, List.drop_zero]
  rw [hlines]
  rw [show ("Itinerary details".toList :: tripleLines ts).length =
    (2 * ts.length + 1) by simp [tripleLines_length]]
  simp only [wpLoop]
  rw [processLine_none_of_noTime _ map 0 [] "Itinerary details".toList (by simp) (by decide)]
  rw [wpLoop_triples map _ ts 1 [] hwf (by simp) (fun t _ => rfl) hdup]
  exact sortByCtx_expected _ ts 1

theorem expectedWps_length (lines : List (List Char)) :
    ∀ (ts : List WpTriple) (i : Nat), (expectedWps lines ts i).length = ts.length
  | [], _ => rfl
  | t :: ts, i => by
    simp only [expectedWps, List.length_cons, expectedWps_length lines ts (i + 2)]

theorem expectedWps_getElem (lines : List (List Char)) :
    ∀ (ts : List WpTriple) (i j : Nat),
      (expectedWps lines ts i)[j]? =
        (ts[j]?).map fun t => mkExpectedWp lines t (i + 2 * j)
  | [], _, j => by simp [expectedWps]
  | t :: ts, i, 0 => by simp [expectedWps]
  | t :: ts, i, j + 1 => by
    simp only [expectedWps, List.getElem?_cons_succ, expectedWps_getElem lines ts (i + 2) j]
    rw [show i + 2 + 2 * j = i + 2 * (j + 1) by omega]

/--
C3 (corrected).  For a normalized text made of a header line followed by N
well-formed `HH:MM <City>` / `(IATA)` triples whose `time-IATA` dedup keys are
pairwise distinct, extractWaypoints returns exactly N waypoints, the j-th
carrying the j-th triple's time and IATA code, with strictly increasing
contextIndex 1 + 2*j (source order, i.e. line position, never clock time).
The distinctness hypothesis is necessary: the detector deduplicates on the
`time-location` key, so repeated triples collapse (see the counterexample).
-/
theorem waypoint_parity_distinct_triples (map : List (List Char × List Char))
    (ts : List WpTriple)
    (hwf : ∀ t ∈ ts, t.wfT)
    (hdup : (ts.map fun t => wpKey t.timeStrW t.iataStrW).Nodup) :
    (extractWaypoints (tripleText ts) map).length = ts.length ∧
    ∀ j : Nat,
      ((extractWaypoints (tripleText ts) map)[j]?).map Waypoint.time =
        (ts[j]?).map WpTriple.timeStrW ∧
      ((extractWaypoints (tripleText ts) map)[j]?).map Waypoint.location =
        (ts[j]?).map WpTriple.iataStrW ∧
      ((extractWaypoints (tripleText ts) map)[j]?).map Waypoint.contextIndex =
        (ts[j]?).map fun _ => 1 + 2 * j := by
  have hE := extractWaypoints_triples map ts hwf hdup
  refine ⟨by rw [hE]; exact expectedWps_length _ ts 1, fun j => ?_⟩
  rw [hE, expectedWps_getElem]
  cases ts[j]? with
  | none => simp
  | some t => exact ⟨rfl, rfl, rfl⟩

/--
Witness for C3 at two concrete distinct triples `10:00 Accra (ACC)` and
`14:30 London (LHR)`: both hypotheses hold and the detector returns exactly
two waypoints.
-/
theorem waypoint_parity_distinct_triples_witness :
    (∀ t ∈ [(⟨'1', '0', '0', '0', "Accra".toList, 'A', 'C', 'C'⟩ : WpTriple),
            ⟨'1', '4', '3', '0', "London".toList, 'L', 'H', 'R'⟩], t.wfT) ∧
    (([(⟨'1', '0', '0', '0', "Accra".toList, 'A', 'C', 'C'⟩ : WpTriple),
       ⟨'1', '4', '3', '0', "London".toList, 'L', 'H', 'R'⟩].map
        fun t => wpKey t.timeStrW t.iataStrW)).Nodup ∧
    (extractWaypoints
      (tripleText [⟨'1', '0', '0', '0', "Accra".toList, 'A', 'C', 'C'⟩,
                   ⟨'1', '4', '3', '0', "London".toList, 'L', 'H', 'R'⟩]) []).length = 2 :=
  ⟨by decide, by decide,
   (waypoint_parity_distinct_triples []
     [⟨'1', '0', '0', '0', "Accra".toList, 'A', 'C', 'C'⟩,
      ⟨'1', '4', '3', '0', "London".toList, 'L', 'H', 'R'⟩]
     (by decide) (by decide)).1⟩

/--
Counterexample to C3 as stated: a text holding two (identical) well-formed
triples yields one waypoint, not two — the detector drops repeats of the
`time-location` dedup key.
-/
theorem duplicate_triples_deduplicated_cex :
    (extractWaypoints
      "Itinerary details\n10:00 Accra\n(ACC)\n10:00 Accra\n(ACC)".toList []).length = 1 := by
  decide

/--
C8 (corrected).  For a normalized text of six lines — header, a non-time line
`p`, a well-formed time line, its `(IATA)` line, then non-time lines `s1` and
`s2` — the detector accepts exactly the one waypoint at line index 2, and its
next-day flag equals the test of the raw substrings `+1 day` / `(+1 day)` /
`+1` against the joined window `p ++ ' ' ++ timeLine ++ ' ' ++ iataLine ++ ' '
++ s1`, i.e. lines one before through two after the time line
(`slice(i-1, i+3)` is exclusive at `i+3`, so `s2` is outside the window), and
the canonical `NEXT_DAY` marker itself is not among the tested substrings (see
the counterexample: a marker inside the window leaves the flag false).
-/
theorem next_day_window (map : List (List Char × List Char))
    (p s1 s2 : List Char) (t : WpTriple)
    (hwf : t.wfT)
    (hp : p.all (fun c => c ≠ '\n') = true)
    (hs1 : s1.all (fun c => c ≠ '\n') = true)
    (hs2 : s2.all (fun c => c ≠ '\n') = true)
    (htp : timeLineMatch (trimJS p) = none)
    (hts1 : timeLineMatch (trimJS s1) = none)
    (hts2 : timeLineMatch (trimJS s2) = none) :
    extractWaypoints (intercalateNl
      ["Itinerary details".toList, p, t.timeLineW, t.iataLineW, s1, s2]) map =
      [mkExpectedWp ["Itinerary details".toList, p, t.timeLineW, t.iataLineW, s1, s2] t 2] ∧
    (mkExpectedWp ["Itinerary details".toList, p, t.timeLineW, t.iataLineW, s1, s2]
        t 2).isNextDay =
      (containsSub (joinSp [p, t.timeLineW, t.iataLineW, s1]) "+1 day".toList ||
       containsSub (joinSp [p, t.timeLineW, t.iataLineW, s1]) "(+1 day)".toList ||
       containsSub (joinSp [p, t.timeLineW, t.iataLineW, s1]) "+1".toList) := by
  refine ⟨?_, ?_⟩
  · have hsplit : splitOnChar '\n' (intercalateNl
        ["Itinerary details".toList, p, t.timeLineW, t.iataLineW, s1, s2]) =
        ["Itinerary details".toList, p, t.timeLineW, t.iataLineW, s1, s2] := by
      apply splitOnChar_intercalateNl
      · intro l hl
        simp only [List.mem_cons, List.not_mem_nil, or_false] at hl
        rcases hl with h | h | h | h | h | h
        · subst h; decide
        · subst h; exact hp
        · subst h; exact timeLineW_nlfree t hwf
        · subst h; exact iataLineW_nlfree t hwf
        · subst h; exact hs1
        · subst h; exact hs2
      · simp
    have hidx : indexOfSub (intercalateNl
        ["Itinerary details".toList, p, t.timeLineW, t.iataLineW, s1, s2])
        "Itinerary details".toList = some 0 := by
      have hform : intercalateNl
          ["Itinerary details".toList, p, t.timeLineW, t.iataLineW, s1, s2] =
          "Itinerary details".toList ++
            ('\n' :: intercalateNl [p, t.timeLineW, t.iataLineW, s1, s2]) := rfl
      rw [hform]
      exact indexOfSub_zero (leadsWith_append _ _)
    have h0 : ∀ s, processLine ["Itinerary details".toList, p, t.timeLineW, t.iataLineW, s1, s2] map 0 s = none := fun s =>
      processLine_none_of_noTime _ map 0 s "Itinerary details".toList (by simp) (by decide)
    have h1 : ∀ s, processLine ["Itinerary details".toList, p, t.timeLineW, t.iataLineW, s1, s2] map 1 s = none := fun s =>
      processLine_none_of_noTime _ map 1 s p (by simp) htp
    have h2 : processLine ["Itinerary details".toList, p, t.timeLineW, t.iataLineW, s1, s2] map 2 [] = some (mkExpectedWp ["Itinerary details".toList, p, t.timeLineW, t.iataLineW, s1, s2] t 2) :=
      processLine_timeLine _ map 2 [] t hwf (by simp) (by simp) rfl
    have h3 : ∀ s, processLine ["Itinerary details".toList, p, t.timeLineW, t.iataLineW, s1, s2] map 3 s = none := fun s =>
      processLine_none_of_noTime _ map 3 s t.iataLineW (by simp)
        (timeLineMatch_iataLine t hwf)
    have h4 : ∀ s, processLine ["Itinerary details".toList, p, t.timeLineW, t.iataLineW, s1, s2] map 4 s = none := fun s =>
      processLine_none_of_noTime _ map 4 s s1 (by simp) hts1
    have h5 : ∀ s, processLine ["Itinerary details".toList, p, t.timeLineW, t.iataLineW, s1, s2] map 5 s = none := fun s =>
      processLine_none_of_noTime _ map 5 s s2 (by simp) hts2
    simp only [extractWaypoints, hidx, List.drop_zero, hsplit]
    rw [show (["Itinerary details".toList, p, t.timeLineW, t.iataLineW, s1, s2] : List (List Char)).length = 0 + 1 + 1 + 1 + 1 + 1 + 1 from rfl]
    simp only [wpLoop, h0, h1, h2, h3, h4, h5]
    rfl
  · rfl

/--
Witness for C8 at `p = "x"`, `s1 = "+1 day"`, `s2 = "zz"` and the triple
`04:25 Joburg (JNB)`: the hypotheses hold and the single returned waypoint's
next-day flag is true, the `+1 day` line sitting two lines after the time line
(inside the window).
-/
theorem next_day_window_witness :
    (⟨'0', '4', '2', '5', "Joburg".toList, 'J', 'N', 'B'⟩ : WpTriple).wfT ∧
    (extractWaypoints (intercalateNl
      ["Itinerary details".toList, "x".toList, (⟨'0', '4', '2', '5', "Joburg".toList, 'J', 'N', 'B'⟩ : WpTriple).timeLineW, (⟨'0', '4', '2', '5', "Joburg".toList, 'J', 'N', 'B'⟩ : WpTriple).iataLineW,
       "+1 day".toList, "zz".toList]) []).map Waypoint.isNextDay = [true] := by
  refine ⟨by decide, ?_⟩
  have h := next_day_window [] "x".toList "+1 day".toList "zz".toList (⟨'0', '4', '2', '5', "Joburg".toList, 'J', 'N', 'B'⟩ : WpTriple)
    (by decide) (by decide) (by decide) (by decide) (by decide) (by decide) (by decide)
  rw [h.1]
  simp only [List.map_cons, List.map_nil]
  rw [h.2]
  decide

/--
Counterexample to C8 as stated: a waypoint whose window holds the canonical
`NEXT_DAY` marker (on the time line itself, as the normalizer emits it) is
returned with its next-day flag false; and a raw `+1 day` three lines after
the time line — inside the claimed "one before to three after" window — also
leaves the flag false, the actual window ending two lines after.
-/
theorem next_day_marker_window_cex :
    ((extractWaypoints "Itinerary details\n04:25 Joburg NEXT_DAY\n(JNB)".toList []).map
        Waypoint.isNextDay = [false]) ∧
    ((extractWaypoints
        "Itinerary details\nx\n04:25 Joburg\n(JNB)\nfiller\n+1 day".toList []).map
        Waypoint.isNextDay = [false]) := by
  decide

end Itin
